import Mathlib

/-!
Verification development for the badgers outlier-generation engine.

Shallow embedding of:
  src/badgers/generators/tabular_data/outliers.py  (namespace Tabular)
  src/badgers/generators/time_series/outliers.py   (namespace TS)

Modelling conventions.
Machine floats are modelled by exact rationals.  The external numeric
toolkit (sklearn / numpy) is the collaborator of spec section 6:
the fitted StandardScaler is passed as an explicit (mean, scale) pair,
the fitted KernelDensity scorer as an explicit scoring function, and
the square root used inside the numpy std routine as an explicit
function parameter; theorems state the collaborator contracts they
need as hypotheses.  The numpy random Generator is modelled as a value
holding deterministic draw streams together with a position counter:
every draw reads the stream at the current position and advances the
position, so the generator value is the whole random-source state.
-/

namespace Badgers

namespace Tabular

/-- Model of a numpy random Generator as consumed by the tabular
strategies: streams for sign draws, exponential draws, uniform draws,
unit-direction draws (for the spherical primitive), integer choice
draws, and a current position. -/
structure RNG where
  signs : Nat → Bool
  exps : Nat → ℚ
  unifs : Nat → ℚ
  dirs : Nat → Nat → ℚ
  picks : Nat → Nat
  pos : Nat

/-- Advance the draw position by k. -/
def RNG.adv (g : RNG) (k : Nat) : RNG :=
  { g with pos := g.pos + k }

/-- Modelled from the spec: badgers.core.utils.random_sign is not under
src/; per spec section 2 it is a deterministic helper producing a random
sign vector (entries plus or minus one) from the seeded generator. -/
def random_sign (g : RNG) (size : Nat) : List ℚ × RNG :=
  (((List.range size).map fun i => if g.signs (g.pos + i) then (1 : ℚ) else -1), g.adv size)

/-- Draw `size` exponential variates (numpy exponential with default
scale); values come from the exps stream. -/
def drawExps (g : RNG) (size : Nat) : List ℚ × RNG :=
  (((List.range size).map fun i => g.exps (g.pos + i)), g.adv size)

/-- Draw one exponential variate. -/
def drawExp (g : RNG) : ℚ × RNG :=
  (g.exps g.pos, g.adv 1)

/-- Modelled from the spec: badgers.core.utils.random_spherical_coordinate
is not under src/; per spec section 2 it is a deterministic helper
producing a random point on an n-sphere surface of the given radius:
the generator supplies a direction and the point is radius times that
direction (theorems assume the unit-norm contract of the direction). -/
def random_spherical_coordinate (g : RNG) (size : Nat) (radius : ℚ) : List ℚ × RNG :=
  (((List.range size).map fun i => radius * g.dirs g.pos i), g.adv 1)

/-- The fitted sklearn StandardScaler: per-feature mean and scale, as
produced by scaler.fit(X) (external collaborator, spec section 6). -/
structure Scaler where
  mean : List ℚ
  scale : List ℚ

/-- scaler.transform on one row: subtract the mean, divide by scale. -/
def Scaler.transformRow (sc : Scaler) (x : List ℚ) : List ℚ :=
  List.zipWith (fun p s => (p.1 - p.2) / s) (x.zip sc.mean) sc.scale

/-- scaler.inverse_transform on one row: multiply by scale, add mean. -/
def Scaler.inverseRow (sc : Scaler) (z : List ℚ) : List ℚ :=
  List.zipWith (fun p s => p.1 * s + p.2) (z.zip sc.mean) sc.scale

/-- scaler.transform on a matrix (row-major list of rows). -/
def Scaler.transform (sc : Scaler) (X : List (List ℚ)) : List (List ℚ) :=
  X.map sc.transformRow

/-- scaler.inverse_transform on a matrix. -/
def Scaler.inverse (sc : Scaler) (X : List (List ℚ)) : List (List ℚ) :=
  X.map sc.inverseRow

/-- Number of columns of a row-major matrix (numpy shape[1] for a
regular nonempty array). -/
def cols (X : List (List ℚ)) : Nat :=
  (X.headD []).length

/-- n_outliers = int(n_samples * percentage_outliers / 100); for
nonnegative ints the Python truncation is floor division. -/
def nOutliers (n p : Nat) : Nat :=
  n * p / 100

/-- The outlier rows built by ZScoreSamplingGenerator.generate, in
standardized space: for each of n points, a fresh sign vector and a
fresh vector of exponential draws, combined as sign * (3 + exp). -/
def zscorePoints (d : Nat) : RNG → Nat → List (List ℚ) × RNG
  | g, 0 => ([], g)
  | g, n + 1 =>
    let sg := random_sign g d
    let eg := drawExps sg.2 d
    let pt := List.zipWith (fun si ei => si * (3 + ei)) sg.1 eg.1
    let rest := zscorePoints d eg.2 n
    (pt :: rest.1, rest.2)

/-- ZScoreSamplingGenerator.generate: standardize, build
floor(n*p/100) points with coordinates sign*(3+exponential), inverse
transform, label everything "outliers".  The fitted scaler is the
external collaborator passed explicitly. -/
def zscoreGenerate (sc : Scaler) (g : RNG) (p : Nat) (X : List (List ℚ)) :
    List (List ℚ) × List String × RNG :=
  let Xt := sc.transform X
  let n := nOutliers Xt.length p
  let pg := zscorePoints (cols Xt) g n
  let yt := List.replicate pg.1.length "outliers"
  (sc.inverse pg.1, yt, pg.2)

/-- The outlier rows built by HypersphereSamplingGenerator.generate in
standardized space: for each point, the radius 3 + exponential is drawn
first, then the spherical primitive produces a point at that radius. -/
def hyperspherePoints (d : Nat) : RNG → Nat → List (List ℚ) × RNG
  | g, 0 => ([], g)
  | g, n + 1 =>
    let eg := drawExp g
    let ptg := random_spherical_coordinate eg.2 d (3 + eg.1)
    let rest := hyperspherePoints d ptg.2 n
    (ptg.1 :: rest.1, rest.2)

/-- HypersphereSamplingGenerator.generate: standardize, build
floor(n*p/100) points on hyperspheres of radius 3 + exponential,
inverse transform, label everything "outliers". -/
def hypersphereGenerate (sc : Scaler) (g : RNG) (p : Nat) (X : List (List ℚ)) :
    List (List ℚ) × List String × RNG :=
  let Xt := sc.transform X
  let n := nOutliers Xt.length p
  let pg := hyperspherePoints (cols Xt) g n
  let yt := List.replicate pg.1.length "outliers"
  (sc.inverse pg.1, yt, pg.2)

/-- Sum of squares of a vector: the square of its Euclidean norm. -/
def sumSq (v : List ℚ) : ℚ :=
  (v.map fun x => x * x).sum

/-- Floor of a nonnegative rational as a natural number (used where
Python / numpy truncate nonnegative float quantities). -/
def qfloorNat (q : ℚ) : Nat :=
  (q.num / (q.den : Int)).toNat

/-- np.max over a list (numpy requires nonempty input; the empty
default is never reached on the inputs the strategies build). -/
def npMax : List ℚ → ℚ
  | [] => 0
  | x :: xs => xs.foldl max x

/-- np.min over a list. -/
def npMin : List ℚ → ℚ
  | [] => 0
  | x :: xs => xs.foldl min x

/-- Column minima of a matrix (np.min(Xt, axis=0)). -/
def colMins (X : List (List ℚ)) : List ℚ :=
  (List.range (cols X)).map fun j => npMin (X.map fun r => r.getD j 0)

/-- Column maxima of a matrix (np.max(Xt, axis=0)). -/
def colMaxs (X : List (List ℚ)) : List ℚ :=
  (List.range (cols X)).map fun j => npMax (X.map fun r => r.getD j 0)

/-- Histogram bin edge c along a dimension with range [lo, hi] split
into `bins` equal-width bins (np.histogramdd edges; the degenerate
lo = hi column case is outside the modelled domain). -/
def binEdge (lo hi : ℚ) (bins c : Nat) : ℚ :=
  lo + (hi - lo) * c / bins

/-- Bin index of a value: equal-width binning with the rightmost bin
closed on the right, as np.histogramdd does. -/
def binIdx (lo hi : ℚ) (bins : Nat) (v : ℚ) : Nat :=
  min (qfloorNat ((v - lo) * bins / (hi - lo))) (bins - 1)

/-- Multi-dimensional bin coordinate of one row. -/
def rowCoord (los his : List ℚ) (bins : Nat) (r : List ℚ) : List Nat :=
  List.zipWith (fun p v => binIdx p.1 p.2 bins v) (los.zip his) r

/-- All bin coordinates of a d-dimensional histogram with `bins` bins
per axis, in C (row-major) order: the order in which np.where walks the
flattened histogram. -/
def allCoords : Nat → Nat → List (List Nat)
  | 0, _ => [[]]
  | d + 1, bins => ((List.range bins).map fun c => (allCoords d bins).map fun rest => c :: rest).flatten

/-- Flattened histogram counts of the standardized matrix, C order
(np.histogramdd(Xt, density=False, bins=bins) flattened). -/
def histCounts (Xt : List (List ℚ)) (bins : Nat) : List Nat :=
  let los := colMins Xt
  let his := colMaxs Xt
  (allCoords (cols Xt) bins).map fun c =>
    Xt.countP fun r => decide (rowCoord los his bins r = c)

/-- Histogram counts as rationals. -/
def castCounts (counts : List Nat) : List ℚ :=
  counts.map fun c => (c : ℚ)

/-- The normalization step of HistogramSamplingGenerator.generate,
line 190 of the source: norm_hist = hist / (np.max(hist) - np.min(hist)).
Note the minimum is not subtracted from the counts. -/
def normalizeCounts (counts : List Nat) : List ℚ :=
  (castCounts counts).map fun c => c / (npMax (castCounts counts) - npMin (castCounts counts))

/-- Refinement reference for the normalization step, written from the
words of the spec alone: min-max scaling maps each count c to
(c - min) / (max - min). -/
def specMinMaxScale (counts : List Nat) : List ℚ :=
  (castCounts counts).map fun c =>
    (c - npMin (castCounts counts)) / (npMax (castCounts counts) - npMin (castCounts counts))

/-- Bin coordinates whose normalized density is at or below the
threshold, in the order np.where produces them. -/
def lowCoords (Xt : List (List ℚ)) (bins : Nat) (thr : ℚ) : List (List Nat) :=
  ((allCoords (cols Xt) bins).zip (normalizeCounts (histCounts Xt bins))).filterMap
    fun p => if p.2 ≤ thr then some p.1 else none

/-- Errors the tabular strategies can raise at generate time. -/
inductive TabErr where
  | unsupported
  | emptySample
deriving DecidableEq

/-- numpy Generator.choice with replacement from a list of bin
coordinates: k picks, each indexed by the picks stream; choosing from
an empty list is the error numpy raises when samples are requested. -/
def chooseCoords (g : RNG) (cands : List (List Nat)) (k : Nat) :
    Except TabErr (List (List Nat) × RNG) :=
  if cands.isEmpty ∧ 0 < k then .error .emptySample
  else .ok (((List.range k).map fun i => cands.getD (g.picks (g.pos + i) % cands.length) []), g.adv k)

/-- One uniform draw in [low, high] (numpy uniform, modelled as
low + (high - low) * u with u from the uniform stream). -/
def drawUnif (g : RNG) (low high : ℚ) : ℚ × RNG :=
  (low + (high - low) * g.unifs g.pos, g.adv 1)

/-- One outlier row for a chosen bin coordinate: a uniform draw inside
the bin edges of every dimension, consumed left to right. -/
def binPoint (los his : List ℚ) (bins : Nat) : RNG → List Nat → List ℚ × RNG
  | g, [] => ([], g)
  | g, c :: cs =>
    let lo := los.headD 0
    let hi := his.headD 0
    let vg := drawUnif g (binEdge lo hi bins c) (binEdge lo hi bins (c + 1))
    let rest := binPoint (los.tail) (his.tail) bins vg.2 cs
    (vg.1 :: rest.1, rest.2)

/-- Outlier rows for all chosen bin coordinates. -/
def binPoints (los his : List ℚ) (bins : Nat) : RNG → List (List Nat) → List (List ℚ) × RNG
  | g, [] => ([], g)
  | g, c :: cs =>
    let r := binPoint los his bins g c
    let rest := binPoints los his bins r.2 cs
    (r.1 :: rest.1, rest.2)

/-- HistogramSamplingGenerator.generate: reject more than 5 columns,
standardize, histogram the standardized data, normalize the counts by
dividing by (max - min), keep the bin coordinates at or below the
density threshold, sample n bins from them with replacement, draw one
uniform point inside each sampled bin, inverse transform. -/
def histogramGenerate (sc : Scaler) (g : RNG) (p : Nat) (thr : ℚ) (bins : Nat)
    (X : List (List ℚ)) : Except TabErr (List (List ℚ) × List String × RNG) :=
  if 5 < cols X then .error .unsupported
  else
    let Xt := sc.transform X
    let n := nOutliers Xt.length p
    match chooseCoords g (lowCoords Xt bins thr) n with
    | .error e => .error e
    | .ok cg =>
      let og := binPoints (colMins Xt) (colMaxs Xt) bins cg.2 cg.1
      let yt := List.replicate og.1.length "outliers"
      .ok (sc.inverse og.1, yt, og.2)

/-- Insertion into a sorted list of rationals. -/
def insertQ (x : ℚ) : List ℚ → List ℚ
  | [] => [x]
  | y :: ys => if x ≤ y then x :: y :: ys else y :: insertQ x ys

/-- Sort a list of rationals (model of the sort inside np.percentile). -/
def sortQ : List ℚ → List ℚ
  | [] => []
  | x :: xs => insertQ x (sortQ xs)

/-- np.percentile with the default linear interpolation: position
h = (m - 1) * q / 100 into the sorted scores. -/
def npPercentile (q : ℚ) (l : List ℚ) : ℚ :=
  let s := sortQ l
  let m := s.length
  if m = 0 then 0
  else
    let h : ℚ := (m - 1) * q / 100
    let k := qfloorNat h
    if k + 1 ≤ m - 1 then s.getD k 0 + (h - (k : ℚ)) * (s.getD (k + 1) 0 - s.getD k 0)
    else s.getD (m - 1) 0

/-- The open keyword-argument bag of generate, restricted to the one
key the strategies read (max_samples, read by LowDensitySampling). -/
structure Params where
  max_samples : Option Nat
deriving DecidableEq

/-- An empty params bag: the result of calling generate(X, y) with no
per-call overrides. -/
def noParams : Params := ⟨none⟩

/-- Draw `m` candidate rows, each uniform inside the per-column
[min, max] box of the standardized data. -/
def drawBoxRows (los his : List ℚ) : RNG → Nat → List (List ℚ) × RNG
  | g, 0 => ([], g)
  | g, m + 1 =>
    let row := ((List.range los.length).map fun j =>
      (los.getD j 0) + ((his.getD j 0) - (los.getD j 0)) * g.unifs (g.pos + j))
    let g1 := g.adv los.length
    let rest := drawBoxRows los his g1 m
    (row :: rest.1, rest.2)

/-- The candidate rows LowDensitySamplingGenerator draws: max_samples
rows (the per-call override when given, n_outliers * 100 otherwise)
uniform inside the bounding box of the standardized data. -/
def ldCandidates (sc : Scaler) (g : RNG) (p : Nat) (ps : Params) (X : List (List ℚ)) :
    List (List ℚ) × RNG :=
  let Xt := sc.transform X
  drawBoxRows (colMins Xt) (colMaxs Xt) g
    (ps.max_samples.getD (nOutliers Xt.length p * 100))

/-- The candidates whose estimated log density is at or below the
0.1th percentile of the log densities of the real standardized rows. -/
def ldAccepted (sc : Scaler) (score : List ℚ → ℚ) (g : RNG) (p : Nat)
    (ps : Params) (X : List (List ℚ)) : List (List ℚ) :=
  (ldCandidates sc g p ps X).1.filter fun x =>
    decide (score x ≤ npPercentile (1 / 10) ((sc.transform X).map score))

/-- LowDensitySamplingGenerator.generate: standardize, score the real
rows with the fitted density estimator (external collaborator, passed
as the scoring function), take the 0.1th percentile of those scores as
the acceptance threshold, draw max_samples candidates uniformly in the
bounding box, keep those scoring at or below the threshold, truncate
to n if enough were found, otherwise keep them all and set the warning
flag; an empty result skips the inverse transformation. -/
def lowDensityGenerate (sc : Scaler) (score : List ℚ → ℚ) (g : RNG) (p : Nat)
    (ps : Params) (X : List (List ℚ)) :
    List (List ℚ) × List String × Bool × RNG :=
  let n := nOutliers (sc.transform X).length p
  let accepted := ldAccepted sc score g p ps X
  let warned := decide (accepted.length < n)
  let outl := if accepted.length < n then accepted else accepted.take n
  let yt := List.replicate outl.length "outliers"
  if outl.isEmpty then (outl, yt, warned, (ldCandidates sc g p ps X).2)
  else (sc.inverse outl, yt, warned, (ldCandidates sc g p ps X).2)

/-- DecompositionAndOutlierGenerator.generate: fit the pipeline of
scaler and decomposition transform (external collaborators, passed as
the forward and inverse maps), delegate generation to the wrapped
strategy in latent space, and invert.  The per-call params bag is not
passed to the delegate: it is called with no overrides. -/
def decompGenerate {α β : Type}
    (fwd inv : List (List ℚ) → List (List ℚ))
    (delegate : List (List ℚ) → α → Params → List (List ℚ) × β)
    (X : List (List ℚ)) (y : α) (_ps : Params) : List (List ℚ) × β :=
  let Xt := fwd X
  let r := delegate Xt y noParams
  (inv r.1, r.2)

end Tabular

namespace TS

/-- A numpy float value as the time-series strategies see it: either a
number (modelled exactly as a rational) or NaN.  NaN arises from the
statistics of an empty local window and propagates through arithmetic,
exactly as in numpy. -/
inductive RVal where
  | nan
  | val (x : ℚ)
deriving DecidableEq

/-- Addition with NaN propagation. -/
def RVal.add : RVal → RVal → RVal
  | val a, val b => val (a + b)
  | _, _ => nan

/-- Subtraction with NaN propagation. -/
def RVal.sub : RVal → RVal → RVal
  | val a, val b => val (a - b)
  | _, _ => nan

/-- Multiplication with NaN propagation. -/
def RVal.mul : RVal → RVal → RVal
  | val a, val b => val (a * b)
  | _, _ => nan

/-- Multiplication by an exact scalar, with NaN propagation. -/
def RVal.scale (c : ℚ) : RVal → RVal
  | val a => val (a * c)
  | nan => nan

/-- The square root inside the numpy std routine, with NaN
propagation; the numeric routine itself is external, so it is passed
as a function and theorems state its contract as hypotheses. -/
def RVal.sqrtWith (sqrtFn : ℚ → ℚ) : RVal → RVal
  | val a => val (sqrtFn a)
  | nan => nan

/-- Model of a numpy random Generator as consumed by the time-series
strategies: a sign stream, an exponential stream, a stream of
without-replacement index selections (the result of Generator.choice
with replace=False, whose distinctness and bounds are the numpy
contract stated as hypotheses), and a position. -/
structure RNG where
  signs : Nat → Bool
  exps : Nat → ℚ
  perm : Nat → Nat → Nat → List Nat
  pos : Nat

/-- Advance the draw position by k. -/
def RNG.adv (g : RNG) (k : Nat) : RNG :=
  { g with pos := g.pos + k }

/-- Modelled from the spec: badgers.core.utils.random_sign is not under
src/; per spec section 2 it is a deterministic helper producing a
random sign vector from the seeded generator. -/
def randomSign (g : RNG) (size : Nat) : List RVal × RNG :=
  (((List.range size).map fun i => RVal.val (if g.signs (g.pos + i) then 1 else -1)), g.adv size)

/-- Draw `size` exponential variates. -/
def drawExps (g : RNG) (size : Nat) : List RVal × RNG :=
  (((List.range size).map fun i => RVal.val (g.exps (g.pos + i))), g.adv size)

/-- Errors the time-series strategies can raise. -/
inductive TsErr where
  | shape
  | tooLarge
deriving DecidableEq

/-- Whether an outcome is the 2-D shape ValueError. -/
def isShapeErr {β : Type} : Except TsErr β → Bool
  | .error .shape => true
  | _ => false

/-- numpy Generator.choice(n, size=k, replace=False): raises when more
samples than population are requested, otherwise yields the selection
from the perm stream. -/
def npChoiceNoRep (g : RNG) (n k : Nat) : Except TsErr (List Nat × RNG) :=
  if n < k then .error .tooLarge
  else .ok (g.perm g.pos n k, g.adv 1)

/-- A numpy ndarray of arbitrary dimension: a scalar or a list of
subarrays.  Regular (rectangular) arrays are the ones the strategies
meet; the model is defined on all trees. -/
inductive NDArray where
  | leaf (x : RVal)
  | node (xs : List NDArray)

/-- ndarray.ndim: nesting depth along the first axis. -/
def NDArray.ndim : NDArray → Nat
  | leaf _ => 0
  | node [] => 1
  | node (x :: _) => 1 + x.ndim

/-- shape[1] of a 2-or-more-dimensional array. -/
def shape1 : NDArray → Nat
  | .node (.node ys :: _) => ys.length
  | _ => 0

mutual

/-- The array of zeros written by the assignment X[idx, :] = 0. -/
def NDArray.zeroLike : NDArray → NDArray
  | .leaf _ => .leaf (RVal.val 0)
  | .node xs => .node (NDArray.zeroLikeList xs)

/-- zeroLike on a list of subarrays. -/
def NDArray.zeroLikeList : List NDArray → List NDArray
  | [] => []
  | x :: xs => NDArray.zeroLike x :: NDArray.zeroLikeList xs

end

mutual

/-- Apply a function to every value of an array. -/
def ndMap (f : RVal → RVal) : NDArray → NDArray
  | .leaf a => .leaf (f a)
  | .node xs => .node (ndMapList f xs)

/-- ndMap on a list of subarrays. -/
def ndMapList (f : RVal → RVal) : List NDArray → List NDArray
  | [] => []
  | x :: xs => ndMap f x :: ndMapList f xs

end

mutual

/-- Pointwise combination of two same-shaped arrays (numpy elementwise
arithmetic on equal shapes; ragged leftovers are dropped, a case the
strategies never produce). -/
def ndZipWith (f : RVal → RVal → RVal) : NDArray → NDArray → NDArray
  | .leaf a, .leaf b => .leaf (f a b)
  | .node xs, .node ys => .node (ndZipWithList f xs ys)
  | .leaf a, .node _ => .leaf a
  | .node xs, .leaf _ => .node xs

/-- ndZipWith on lists of subarrays. -/
def ndZipWithList (f : RVal → RVal → RVal) : List NDArray → List NDArray → List NDArray
  | [], _ => []
  | _ :: _, [] => []
  | x :: xs, y :: ys => ndZipWith f x y :: ndZipWithList f xs ys

end

/-- Whether an array is a scalar. -/
def NDArray.isLeaf : NDArray → Bool
  | .leaf _ => true
  | .node _ => false

mutual

/-- numpy broadcasting of a 1-D vector against the last axis of an
array: on a 1-D array the elements are combined pairwise with the
vector, on deeper arrays the vector is mapped over the first axis. -/
def lastAxisZip (f : RVal → RVal → RVal) (v : List RVal) : NDArray → NDArray
  | .leaf a => .leaf a
  | .node xs =>
    if xs.all NDArray.isLeaf then
      .node (List.zipWith (fun x rv => ndZipWith f x (.leaf rv)) xs v)
    else .node (lastAxisZipList f v xs)

/-- lastAxisZip on a list of subarrays. -/
def lastAxisZipList (f : RVal → RVal → RVal) (v : List RVal) : List NDArray → List NDArray
  | [] => []
  | x :: xs => lastAxisZip f v x :: lastAxisZipList f v xs

end

/-- An array of NaN of the given shape, as numpy statistics of an
empty slice produce. -/
def nanLike (a : NDArray) : NDArray :=
  ndMap (fun _ => RVal.nan) a

/-- Python slice index normalization: a negative index counts from the
end of the sequence, clamped to the valid range. -/
def pyNorm (n : Nat) (i : Int) : Nat :=
  if i < 0 then ((n : Int) + i).toNat else min i.toNat n

/-- Python list slicing l[a:b] with full negative-index semantics. -/
def pySlice {α : Type} (l : List α) (a b : Int) : List α :=
  let a2 := pyNorm l.length a
  let b2 := pyNorm l.length b
  (l.drop a2).take (b2 - a2)

/-- local_window.mean(axis=0): the pointwise mean of the window rows;
the mean of an empty window is NaN in every component, with the shape
of a row (numpy keeps the trailing shape of the empty slice). -/
def windowMean (template : NDArray) (ws : List NDArray) : NDArray :=
  match ws with
  | [] => nanLike template
  | w :: rest => ndMap (RVal.scale (1 / ((rest.length + 1 : Nat) : ℚ))) (rest.foldl (ndZipWith RVal.add) w)

/-- local_window.var(axis=0): the pointwise mean of squared deviations
from the window mean (numpy default, no degrees-of-freedom
correction). -/
def windowVar (template : NDArray) (ws : List NDArray) : NDArray :=
  let m := windowMean template ws
  windowMean template (ws.map fun w => ndMap (fun v => RVal.mul v v) (ndZipWith RVal.sub w m))

/-- local_window.std(axis=0): square root of the variance via the
external numeric square root. -/
def windowStd (sqrtFn : ℚ → ℚ) (template : NDArray) (ws : List NDArray) : NDArray :=
  ndMap (RVal.sqrtWith sqrtFn) (windowVar template ws)

/-- One iteration of the LocalZScoreGenerator loop: take the local
window X[idx - w/2 : idx + w/2] with Python slice semantics, compute
its mean and std, draw a sign vector and an exponential vector of
length shape[1], and overwrite row idx with
local_mean + sign * (3 * local_std + exponential). -/
def localZStep (sqrtFn : ℚ → ℚ) (halfw d : Nat) (g : RNG) (rows : List NDArray)
    (idx : Nat) : List NDArray × RNG :=
  let window := pySlice rows ((idx : Int) - (halfw : Int)) ((idx : Int) + (halfw : Int))
  let template := rows.headD (NDArray.node [])
  let m := windowMean template window
  let s := windowStd sqrtFn template window
  let sg := randomSign g d
  let eg := drawExps sg.2 d
  let value := ndZipWith RVal.add m
    (lastAxisZip RVal.mul sg.1 (lastAxisZip RVal.add eg.1 (ndMap (RVal.scale 3) s)))
  (rows.set idx value, eg.2)

/-- The LocalZScoreGenerator mutation loop over the selected indices,
threading the partially mutated array and the generator. -/
def processIdxs (sqrtFn : ℚ → ℚ) (halfw d : Nat) : RNG → List NDArray → List Nat → List NDArray × RNG
  | g, rows, [] => (rows, g)
  | g, rows, idx :: rest =>
    let rg := localZStep sqrtFn halfw d g rows idx
    processIdxs sqrtFn halfw d rg.2 rg.1 rest

/-- The RandomZerosGenerator mutation loop: for each selected index in
order, overwrite the slice at that index with zeros of its shape
(the assignment X[idx, :] = 0). -/
def zeroRows (idxs : List Nat) (rows : List NDArray) : List NDArray :=
  idxs.foldl (fun rs idx => rs.set idx (NDArray.zeroLike (rs.getD idx (NDArray.node [])))) rows

/-- RandomZerosGenerator.generate: reject arrays of dimension below 2
with the shape ValueError, select n_outliers row indices without
replacement, record them, and zero the row at each selected index in
place.  Labels pass through untouched. -/
def randomZerosGenerate {α : Type} (g : RNG) (k : Nat) (X : NDArray) (y : α) :
    Except TsErr (NDArray × α × List Nat × RNG) :=
  if X.ndim < 2 then .error .shape
  else
    match X with
    | .node rows =>
      match npChoiceNoRep g rows.length k with
      | .error e => .error e
      | .ok ig => .ok (.node (zeroRows ig.1 rows), y, ig.1, ig.2)
    | .leaf _ => .error .shape

/-- LocalZScoreGenerator.generate: reject arrays of dimension below 2
with the shape ValueError, select n_outliers row indices without
replacement, record them, and run the local z-score mutation loop. -/
def localZScoreGenerate {α : Type} (sqrtFn : ℚ → ℚ) (g : RNG) (k w : Nat) (X : NDArray) (y : α) :
    Except TsErr (NDArray × α × List Nat × RNG) :=
  if X.ndim < 2 then .error .shape
  else
    match X with
    | .node rows =>
      match npChoiceNoRep g rows.length k with
      | .error e => .error e
      | .ok ig =>
        let pr := processIdxs sqrtFn (w / 2) (shape1 (.node rows)) ig.2 rows ig.1
        .ok (.node pr.1, y, ig.1, pr.2)
    | .leaf _ => .error .shape

/-- A 1-D numeric row, the shape of the rows of a 2-D input. -/
def vecOf (v : List ℚ) : NDArray :=
  .node (v.map fun q => .leaf (RVal.val q))

/-- List-level image of windowMean on purely numeric 1-D rows. -/
def vmean (vs : List (List ℚ)) : List ℚ :=
  match vs with
  | [] => []
  | v :: rest => (rest.foldl (List.zipWith (· + ·)) v).map fun x => x * (1 / ((rest.length + 1 : Nat) : ℚ))

/-- List-level image of windowVar on purely numeric 1-D rows. -/
def vvar (vs : List (List ℚ)) : List ℚ :=
  vmean (vs.map fun v => (List.zipWith (· - ·) v (vmean vs)).map fun x => x * x)

end TS

namespace Fix

/-- A fitted identity scaler (mean 0, scale 1 on one feature). -/
def idScaler : Tabular.Scaler := ⟨[0], [1]⟩

/-- A concrete tabular random source. -/
def gTab : Tabular.RNG :=
  { signs := fun _ => true
    exps := fun _ => 0
    unifs := fun _ => 0
    dirs := fun _ j => if j = 0 then 1 else 0
    picks := fun _ => 0
    pos := 0 }

/-- A concrete time-series random source selecting index 1. -/
def gTs : TS.RNG :=
  { signs := fun _ => true
    exps := fun _ => 1 / 2
    perm := fun _ _ _ => [1]
    pos := 0 }

/-- A concrete one-column data matrix. -/
def X1 : List (List ℚ) := [[0], [2], [4], [6]]

/-- A concrete 2-D time series with two rows and one feature. -/
def T1 : TS.NDArray := TS.NDArray.node [TS.vecOf [0], TS.vecOf [2]]

/-- A concrete time-series random source selecting index 0. -/
def gTs0 : TS.RNG :=
  { signs := fun _ => true
    exps := fun _ => 1 / 2
    perm := fun _ _ _ => [0]
    pos := 0 }

/-- A concrete 3-dimensional array of shape (1, 1, 1). -/
def T3d : TS.NDArray :=
  TS.NDArray.node [TS.NDArray.node [TS.NDArray.node [TS.NDArray.leaf (TS.RVal.val 1)]]]

/-- A concrete 12-row one-feature series. -/
def T12 : List TS.NDArray := List.replicate 12 (TS.vecOf [7])

end Fix

theorem foldl_max_init_le (l : List ℚ) (b : ℚ) : b ≤ l.foldl max b := by
  induction l generalizing b with
  | nil => simp
  | cons x xs ih => exact le_trans (le_max_left b x) (ih (max b x))

theorem mem_le_foldl_max {l : List ℚ} {x : ℚ} (h : x ∈ l) (b : ℚ) : x ≤ l.foldl max b := by
  induction l generalizing b with
  | nil => cases h
  | cons y ys ih =>
    rcases List.mem_cons.mp h with rfl | h2
    · exact le_trans (le_max_right b x) (foldl_max_init_le ys (max b x))
    · exact ih h2 (max b y)

theorem le_npMax {l : List ℚ} {x : ℚ} (h : x ∈ l) : x ≤ Tabular.npMax l := by
  cases l with
  | nil => cases h
  | cons y ys =>
    rcases List.mem_cons.mp h with rfl | h2
    · exact foldl_max_init_le ys x
    · exact mem_le_foldl_max h2 y

/-- C6 counterexample: on the concrete one-column input
[[0],[1],[1],[1]] with two bins and the identity scaler, the histogram
counts are [1, 3]; the code normalizes them to [1/2, 3/2], while
min-max scaling gives [0, 1], and 3/2 does not lie in [0, 1]. -/
theorem claim_C6_counterexample :
    Tabular.histCounts (Fix.idScaler.transform [[0], [1], [1], [1]]) 2 = [1, 3] ∧
    Tabular.normalizeCounts (Tabular.histCounts (Fix.idScaler.transform [[0], [1], [1], [1]]) 2) =
      [1 / 2, 3 / 2] ∧
    Tabular.specMinMaxScale (Tabular.histCounts (Fix.idScaler.transform [[0], [1], [1], [1]]) 2) =
      [0, 1] ∧
    ¬ ((3 : ℚ) / 2 ≤ 1) := by
  refine ⟨?_, ?_, ?_, ?_⟩ <;> with_unfolding_all decide

/-- C6 as amended: the code divides each bin count by
(max count - min count) without subtracting the minimum; when the
minimum count is 0 and the maximum is positive (the case of at least
one empty and one occupied bin) this coincides with min-max scaling
and every normalized value lies in [0, 1]. -/
theorem claim_C6_normalization (counts : List Nat)
    (hmin : Tabular.npMin (Tabular.castCounts counts) = 0)
    (hmax : 0 < Tabular.npMax (Tabular.castCounts counts)) :
    Tabular.normalizeCounts counts = Tabular.specMinMaxScale counts ∧
    ∀ v ∈ Tabular.normalizeCounts counts, 0 ≤ v ∧ v ≤ 1 := by
  constructor
  · simp only [Tabular.normalizeCounts, Tabular.specMinMaxScale, hmin, sub_zero]
  · intro v hv
    simp only [Tabular.normalizeCounts, hmin, sub_zero, List.mem_map] at hv
    obtain ⟨c, hc, rfl⟩ := hv
    obtain ⟨n, _, hn⟩ :=
      (show ∃ a ∈ counts, c = (a : ℚ) by simpa [Tabular.castCounts] using hc)
    constructor
    · rw [hn]
      exact div_nonneg (by positivity) (le_of_lt hmax)
    · rw [div_le_one hmax]
      exact le_npMax hc

/-- C6 witness: the theorem applied to the concrete counts [0, 2]. -/
theorem claim_C6_normalization_witness :
    Tabular.normalizeCounts [0, 2] = Tabular.specMinMaxScale [0, 2] ∧
    ∀ v ∈ Tabular.normalizeCounts [0, 2], 0 ≤ v ∧ v ≤ 1 :=
  claim_C6_normalization [0, 2] (by with_unfolding_all decide) (by with_unfolding_all decide)

/-- C7: HistogramSamplingGenerator.generate raises the
unsupported-input error whenever the input has more than 5 columns;
and when the dimension check passes but no bin has normalized density
at or below the threshold, the low-density candidate set is empty and
generate fails with the empty-sampling error whenever at least one
outlier is requested. -/
theorem claim_C7_histogram_errors (sc : Tabular.Scaler) (g : Tabular.RNG) (p : Nat)
    (thr : ℚ) (bins : Nat) (X : List (List ℚ)) :
    (5 < Tabular.cols X →
      Tabular.histogramGenerate sc g p thr bins X = .error .unsupported) ∧
    (Tabular.cols X ≤ 5 →
      Tabular.lowCoords (sc.transform X) bins thr = [] →
      0 < Tabular.nOutliers (sc.transform X).length p →
      Tabular.histogramGenerate sc g p thr bins X = .error .emptySample) := by
  constructor
  · intro h
    simp [Tabular.histogramGenerate, h]
  · intro h5 hlow hn
    simp [Tabular.histogramGenerate, Tabular.chooseCoords, hlow, hn, Nat.not_lt.mpr h5]

/-- C7 witness: a 6-column input is rejected as unsupported, and a
5-row one-column input whose two bins hold 2 and 3 points has
normalized densities 2 and 3, both above the threshold 1/2, so with
one outlier requested generate fails with the empty-sampling error. -/
theorem claim_C7_histogram_errors_witness :
    Tabular.histogramGenerate Fix.idScaler Fix.gTab 10 (1 / 2) 2 [[0, 0, 0, 0, 0, 0]] =
      .error .unsupported ∧
    Tabular.histogramGenerate Fix.idScaler Fix.gTab 20 (1 / 2) 2 [[0], [0], [1], [1], [1]] =
      .error .emptySample :=
  ⟨(claim_C7_histogram_errors Fix.idScaler Fix.gTab 10 (1 / 2) 2 [[0, 0, 0, 0, 0, 0]]).1
      (by with_unfolding_all decide),
   (claim_C7_histogram_errors Fix.idScaler Fix.gTab 20 (1 / 2) 2 [[0], [0], [1], [1], [1]]).2
      (by with_unfolding_all decide) (by with_unfolding_all decide) (by with_unfolding_all decide)⟩

theorem zscorePoints_length (d : Nat) (g : Tabular.RNG) (n : Nat) :
    (Tabular.zscorePoints d g n).1.length = n := by
  induction n generalizing g with
  | zero => rfl
  | succ k ih => simp [Tabular.zscorePoints, ih]

theorem hyperspherePoints_length (d : Nat) (g : Tabular.RNG) (n : Nat) :
    (Tabular.hyperspherePoints d g n).1.length = n := by
  induction n generalizing g with
  | zero => rfl
  | succ k ih => simp [Tabular.hyperspherePoints, ih]

theorem binPoints_length (los his : List ℚ) (bins : Nat) (g : Tabular.RNG)
    (cs : List (List Nat)) : (Tabular.binPoints los his bins g cs).1.length = cs.length := by
  induction cs generalizing g with
  | nil => rfl
  | cons c cs ih => simp [Tabular.binPoints, ih]

/-- C1: every tabular strategy returns exactly floor(n*p/100) outlier
rows: ZScore and Hypersphere always; Histogram whenever the dimension
check passes and the low-density bin set is nonempty (it then
succeeds); the decomposition wrapper around the default ZScore
delegate whenever the external transforms preserve row counts; and
LowDensitySampling returns at most that many rows with the warning
flag set if and only if fewer were produced. -/
theorem claim_C1_counts :
    (∀ (sc : Tabular.Scaler) (g : Tabular.RNG) (p : Nat) (X : List (List ℚ)),
      (Tabular.zscoreGenerate sc g p X).1.length = Tabular.nOutliers X.length p) ∧
    (∀ (sc : Tabular.Scaler) (g : Tabular.RNG) (p : Nat) (X : List (List ℚ)),
      (Tabular.hypersphereGenerate sc g p X).1.length = Tabular.nOutliers X.length p) ∧
    (∀ (sc : Tabular.Scaler) (g : Tabular.RNG) (p : Nat) (thr : ℚ) (bins : Nat)
      (X : List (List ℚ)), Tabular.cols X ≤ 5 →
      Tabular.lowCoords (sc.transform X) bins thr ≠ [] →
      (Tabular.histogramGenerate sc g p thr bins X).map (fun r => r.1.length) =
        .ok (Tabular.nOutliers X.length p)) ∧
    (∀ (sc : Tabular.Scaler) (score : List ℚ → ℚ) (g : Tabular.RNG) (p : Nat)
      (ps : Tabular.Params) (X : List (List ℚ)),
      (Tabular.lowDensityGenerate sc score g p ps X).1.length ≤ Tabular.nOutliers X.length p ∧
      ((Tabular.lowDensityGenerate sc score g p ps X).2.2.1 = true ↔
        (Tabular.lowDensityGenerate sc score g p ps X).1.length < Tabular.nOutliers X.length p)) ∧
    (∀ (fwd inv : List (List ℚ) → List (List ℚ)) (sc : Tabular.Scaler) (g : Tabular.RNG)
      (p : Nat) (X : List (List ℚ)) (y : Unit) (ps : Tabular.Params),
      (∀ M, (fwd M).length = M.length) → (∀ M, (inv M).length = M.length) →
      (Tabular.decompGenerate fwd inv (fun Xt _ _ => Tabular.zscoreGenerate sc g p Xt)
        X y ps).1.length = Tabular.nOutliers X.length p) := by
  have hz : ∀ (sc : Tabular.Scaler) (g : Tabular.RNG) (p : Nat) (X : List (List ℚ)),
      (Tabular.zscoreGenerate sc g p X).1.length = Tabular.nOutliers X.length p := by
    intro sc g p X
    simp [Tabular.zscoreGenerate, Tabular.Scaler.inverse, Tabular.Scaler.transform,
      zscorePoints_length]
  refine ⟨hz, ?_, ?_, ?_, ?_⟩
  · intro sc g p X
    simp [Tabular.hypersphereGenerate, Tabular.Scaler.inverse, Tabular.Scaler.transform,
      hyperspherePoints_length]
  · intro sc g p thr bins X h5 hlow
    have hne : ¬ ((Tabular.lowCoords (sc.transform X) bins thr).isEmpty = true ∧
        0 < Tabular.nOutliers (sc.transform X).length p) := by
      intro hc
      exact hlow (List.isEmpty_iff.mp hc.1)
    have hok : Tabular.chooseCoords g (Tabular.lowCoords (sc.transform X) bins thr)
        (Tabular.nOutliers (sc.transform X).length p) =
        .ok (((List.range (Tabular.nOutliers (sc.transform X).length p)).map fun i =>
          (Tabular.lowCoords (sc.transform X) bins thr).getD
            (g.picks (g.pos + i) % (Tabular.lowCoords (sc.transform X) bins thr).length) []),
          g.adv (Tabular.nOutliers (sc.transform X).length p)) := by
      rw [Tabular.chooseCoords, if_neg hne]
    simp only [Tabular.histogramGenerate, hok]
    rw [if_neg (Nat.not_lt.mpr h5)]
    simp [Except.map, Tabular.Scaler.inverse, binPoints_length, Tabular.Scaler.transform]
  · intro sc score g p ps X
    set n := Tabular.nOutliers (sc.transform X).length p with hn
    have hnX : n = Tabular.nOutliers X.length p := by
      simp [hn, Tabular.Scaler.transform]
    set acc := Tabular.ldAccepted sc score g p ps X with hacc
    have hlen : (Tabular.lowDensityGenerate sc score g p ps X).1.length =
        if acc.length < n then acc.length else (acc.take n).length := by
      simp only [Tabular.lowDensityGenerate, ← hn, ← hacc]
      split
      case isTrue h =>
        split
        case isTrue h2 => simp [List.isEmpty_iff.mp h2]
        case isFalse h2 => simp [Tabular.Scaler.inverse, h]
      case isFalse h =>
        split
        case isTrue h2 => simp [List.isEmpty_iff.mp h2, h]
        case isFalse h2 => simp [Tabular.Scaler.inverse, h]
    have hwarn : (Tabular.lowDensityGenerate sc score g p ps X).2.2.1 =
        decide (acc.length < n) := by
      simp only [Tabular.lowDensityGenerate, ← hn, ← hacc]
      split <;> split <;> rfl
    rw [← hnX]
    constructor
    · rw [hlen]
      split
      case isTrue h => exact le_of_lt h
      case isFalse h => simp [List.length_take]
    · rw [hwarn, hlen]
      by_cases h : acc.length < n
      · simp [h]
      · have : (acc.take n).length = n := by
          simp [List.length_take, Nat.min_eq_left (Nat.le_of_not_lt h)]
        simp [h, this]
  · intro fwd inv sc g p X y ps hfwd hinv
    simp [Tabular.decompGenerate, hinv, hz, hfwd, Tabular.nOutliers]

/-- C1 witness: the concrete parts with hypotheses discharged: a
successful histogram run on a 4-row one-column input requesting one
outlier, and the decomposition wrapper with identity transforms. -/
theorem claim_C1_counts_witness :
    (Tabular.histogramGenerate Fix.idScaler Fix.gTab 25 (1 / 2) 2
        [[0], [1], [1], [1]]).map (fun r => r.1.length) = .ok 1 ∧
    (Tabular.decompGenerate (fun M => M) (fun M => M)
        (fun Xt _ _ => Tabular.zscoreGenerate Fix.idScaler Fix.gTab 50 Xt)
        Fix.X1 () Tabular.noParams).1.length = 2 :=
  ⟨by
    have h := claim_C1_counts.2.2.1 Fix.idScaler Fix.gTab 25 (1 / 2) 2 [[0], [1], [1], [1]]
      (by with_unfolding_all decide) (by with_unfolding_all decide)
    simpa using h,
   by
    have h := claim_C1_counts.2.2.2.2 (fun M => M) (fun M => M) Fix.idScaler Fix.gTab 50
      Fix.X1 () Tabular.noParams (fun _ => rfl) (fun _ => rfl)
    simpa [Fix.X1] using h⟩

theorem mem_zipWith {α β γ : Type} {f : α → β → γ} :
    ∀ {as : List α} {bs : List β} {c : γ}, c ∈ List.zipWith f as bs →
      ∃ a b, a ∈ as ∧ b ∈ bs ∧ c = f a b := by
  intro as
  induction as with
  | nil => intro bs c h; cases h
  | cons a as ih =>
    intro bs c h
    cases bs with
    | nil => cases h
    | cons b bs =>
      rcases List.mem_cons.mp h with rfl | h2
      · exact ⟨a, b, List.mem_cons_self a as, List.mem_cons_self b bs, rfl⟩
      · obtain ⟨a2, b2, ha, hb, rfl⟩ := ih h2
        exact ⟨a2, b2, List.mem_cons_of_mem a ha, List.mem_cons_of_mem b hb, rfl⟩

theorem transform_inverse_aux :
    ∀ (z m s : List ℚ), z.length ≤ m.length → z.length ≤ s.length → (∀ x ∈ s, x ≠ 0) →
      List.zipWith (fun p sv => (p.1 - p.2) / sv)
        ((List.zipWith (fun p sv => p.1 * sv + p.2) (z.zip m) s).zip m) s = z := by
  intro z
  induction z with
  | nil => intro m s _ _ _; simp
  | cons x z ih =>
    intro m s hm hs h0
    cases m with
    | nil => simp at hm
    | cons a m =>
      cases s with
      | nil => simp at hs
      | cons b s =>
        simp only [List.zip_cons_cons, List.zipWith_cons_cons, List.cons.injEq]
        constructor
        · have hb : b ≠ 0 := h0 b (List.mem_cons_self b s)
          field_simp
        · exact ih m s (by simpa using hm) (by simpa using hs)
            (fun u hu => h0 u (List.mem_cons_of_mem b hu))

/-- Re-standardizing an inverse-standardized row with the same fitted
scaler recovers the row, provided no scale entry is zero (sklearn
replaces zero variances by scale 1, so fitted scales are nonzero). -/
theorem transformRow_inverseRow (sc : Tabular.Scaler) (z : List ℚ)
    (hm : z.length ≤ sc.mean.length) (hs : z.length ≤ sc.scale.length)
    (h0 : ∀ x ∈ sc.scale, x ≠ 0) :
    sc.transformRow (sc.inverseRow z) = z := by
  simpa [Tabular.Scaler.transformRow, Tabular.Scaler.inverseRow] using
    transform_inverse_aux z sc.mean sc.scale hm hs h0

theorem zscorePoints_spec (d : Nat) (g : Tabular.RNG) (n : Nat)
    (hexp : ∀ i, 0 ≤ g.exps i) :
    ∀ pt ∈ (Tabular.zscorePoints d g n).1, pt.length = d ∧ ∀ x ∈ pt, 3 ≤ |x| := by
  induction n generalizing g with
  | zero => intro pt hpt; simp [Tabular.zscorePoints] at hpt
  | succ k ih =>
    intro pt hpt
    simp only [Tabular.zscorePoints] at hpt
    rcases List.mem_cons.mp hpt with rfl | h2
    · constructor
      · simp [Tabular.random_sign, Tabular.drawExps]
      · intro x hx
        obtain ⟨sv, ev, hsv, hev, rfl⟩ := mem_zipWith hx
        obtain ⟨i, _, hsveq⟩ : ∃ a < d, (if g.signs (g.pos + a) = true then (1 : ℚ) else -1) = sv := by
          simpa [Tabular.random_sign] using hsv
        obtain ⟨i2, _, heveq⟩ : ∃ a < d, (Tabular.random_sign g d).2.exps
            ((Tabular.random_sign g d).2.pos + a) = ev := by
          simpa [Tabular.drawExps] using hev
        subst hsveq
        subst heveq
        have he2 : 0 ≤ (Tabular.random_sign g d).2.exps
            ((Tabular.random_sign g d).2.pos + i2) := hexp _
        by_cases hb : g.signs (g.pos + i)
        · rw [if_pos hb, one_mul, abs_of_nonneg (by linarith)]
          linarith
        · rw [if_neg hb, neg_one_mul, abs_neg, abs_of_nonneg (by linarith)]
          linarith
    · exact ih ((Tabular.random_sign g d).2.adv d) hexp pt h2

theorem sumSq_map_mul (r : ℚ) (l : List ℚ) :
    Tabular.sumSq (l.map fun x => r * x) = r ^ 2 * Tabular.sumSq l := by
  induction l with
  | nil => simp [Tabular.sumSq]
  | cons x xs ih =>
    simp only [List.map_cons, Tabular.sumSq, List.sum_cons] at ih ⊢
    rw [ih]
    ring

theorem hyperspherePoints_spec (d : Nat) (g : Tabular.RNG) (n : Nat)
    (hexp : ∀ i, 0 ≤ g.exps i)
    (hdir : ∀ q, Tabular.sumSq ((List.range d).map (g.dirs q)) = 1) :
    ∀ pt ∈ (Tabular.hyperspherePoints d g n).1,
      pt.length = d ∧ 9 ≤ Tabular.sumSq pt := by
  induction n generalizing g with
  | zero => intro pt hpt; simp [Tabular.hyperspherePoints] at hpt
  | succ k ih =>
    intro pt hpt
    simp only [Tabular.hyperspherePoints] at hpt
    rcases List.mem_cons.mp hpt with rfl | h2
    · constructor
      · simp [Tabular.random_spherical_coordinate]
      · have hr : (3 : ℚ) ≤ 3 + g.exps g.pos := by
          have := hexp g.pos
          linarith
        have hmap : ((List.range d).map fun i =>
            (3 + (Tabular.drawExp g).1) * (Tabular.drawExp g).2.dirs (Tabular.drawExp g).2.pos i) =
            ((List.range d).map ((Tabular.drawExp g).2.dirs (Tabular.drawExp g).2.pos)).map
              fun x => (3 + (Tabular.drawExp g).1) * x := by
          simp [List.map_map]
        have hdir2 : Tabular.sumSq ((List.range d).map
            ((Tabular.drawExp g).2.dirs (Tabular.drawExp g).2.pos)) = 1 := hdir _
        simp only [Tabular.random_spherical_coordinate, hmap, sumSq_map_mul, hdir2]
        have hq : (3 : ℚ) ≤ 3 + (Tabular.drawExp g).1 := by
          have := hexp g.pos
          simp only [Tabular.drawExp]
          linarith
        nlinarith
    · exact ih ((Tabular.random_spherical_coordinate (Tabular.drawExp g).2 d
        (3 + (Tabular.drawExp g).1)).2) hexp hdir pt h2

/-- C2: every point returned by ZScoreSamplingGenerator, once
re-standardized with the scaler fitted on the same input, has absolute
value at least 3 in every dimension; every point returned by
HypersphereSamplingGenerator, once re-standardized, has squared
Euclidean norm at least 9, that is L2 norm at least 3.  Hypotheses are
the collaborator contracts: exponential draws are nonnegative, the
spherical primitive draws unit directions, the fitted scaler covers
the data columns and has nonzero scales. -/
theorem claim_C2_magnitudes (sc : Tabular.Scaler) (g : Tabular.RNG) (p : Nat)
    (X : List (List ℚ))
    (hexp : ∀ i, 0 ≤ g.exps i)
    (hdir : ∀ q, Tabular.sumSq ((List.range (Tabular.cols (sc.transform X))).map (g.dirs q)) = 1)
    (hm : Tabular.cols (sc.transform X) ≤ sc.mean.length)
    (hsl : Tabular.cols (sc.transform X) ≤ sc.scale.length)
    (h0 : ∀ s ∈ sc.scale, s ≠ 0) :
    (∀ pt ∈ (Tabular.zscoreGenerate sc g p X).1, ∀ x ∈ sc.transformRow pt, 3 ≤ |x|) ∧
    (∀ pt ∈ (Tabular.hypersphereGenerate sc g p X).1, 9 ≤ Tabular.sumSq (sc.transformRow pt)) := by
  constructor
  · intro pt hpt x hx
    simp only [Tabular.zscoreGenerate, Tabular.Scaler.inverse, List.mem_map] at hpt
    obtain ⟨z, hz, rfl⟩ := hpt
    have hspec := zscorePoints_spec (Tabular.cols (sc.transform X)) g
      (Tabular.nOutliers (sc.transform X).length p) hexp z hz
    rw [transformRow_inverseRow sc z (by rw [hspec.1]; exact hm)
      (by rw [hspec.1]; exact hsl) h0] at hx
    exact hspec.2 x hx
  · intro pt hpt
    simp only [Tabular.hypersphereGenerate, Tabular.Scaler.inverse, List.mem_map] at hpt
    obtain ⟨z, hz, rfl⟩ := hpt
    have hspec := hyperspherePoints_spec (Tabular.cols (sc.transform X)) g
      (Tabular.nOutliers (sc.transform X).length p) hexp hdir z hz
    rw [transformRow_inverseRow sc z (by rw [hspec.1]; exact hm)
      (by rw [hspec.1]; exact hsl) h0]
    exact hspec.2

/-- C2 witness: on the fixture data both strategies return [3] twice;
the theorem applied to the first point gives the magnitude bounds,
with every collaborator contract discharged concretely. -/
theorem claim_C2_magnitudes_witness :
    3 ≤ |(Fix.idScaler.transformRow [(3 : ℚ)]).headD 0| ∧
    9 ≤ Tabular.sumSq (Fix.idScaler.transformRow [(3 : ℚ)]) := by
  have H := claim_C2_magnitudes Fix.idScaler Fix.gTab 50 Fix.X1
    (fun _ => le_refl 0)
    (by
      intro q
      have hc : Tabular.cols (Fix.idScaler.transform Fix.X1) = 1 := by with_unfolding_all rfl
      have h0 : List.range 1 = [0] := rfl
      have h1 : Fix.gTab.dirs q 0 = 1 := rfl
      rw [hc, h0, List.map_cons, List.map_nil, h1, Tabular.sumSq]
      norm_num)
    (by with_unfolding_all decide) (by with_unfolding_all decide)
    (by with_unfolding_all decide)
  have hz : [(3 : ℚ)] ∈ (Tabular.zscoreGenerate Fix.idScaler Fix.gTab 50 Fix.X1).1 := by
    have hev : (Tabular.zscoreGenerate Fix.idScaler Fix.gTab 50 Fix.X1).1 = [[3], [3]] := by
      with_unfolding_all rfl
    rw [hev]
    exact List.mem_cons_self _ _
  have hh : [(3 : ℚ)] ∈ (Tabular.hypersphereGenerate Fix.idScaler Fix.gTab 50 Fix.X1).1 := by
    have hev : (Tabular.hypersphereGenerate Fix.idScaler Fix.gTab 50 Fix.X1).1 = [[3], [3]] := by
      with_unfolding_all rfl
    rw [hev]
    exact List.mem_cons_self _ _
  have hx : (Fix.idScaler.transformRow [(3 : ℚ)]).headD 0 ∈ Fix.idScaler.transformRow [(3 : ℚ)] := by
    with_unfolding_all decide
  exact ⟨H.1 _ hz _ hx, H.2 _ hh⟩

theorem getD_set_self {α : Type} (d : α) (l : List α) (i : Nat) (v : α) (h : i < l.length) :
    (l.set i v).getD i d = v := by
  simp [List.getD_eq_getElem?_getD, List.getElem?_set_eq_of_lt v h]

theorem getD_set_ne {α : Type} (d : α) (l : List α) {i j : Nat} (v : α) (h : i ≠ j) :
    (l.set i v).getD j d = l.getD j d := by
  simp [List.getD_eq_getElem?_getD, List.getElem?_set_ne h]

theorem ndim_vecOf (v : List ℚ) : (TS.vecOf v).ndim = 1 := by
  cases v <;> rfl

theorem zeroLike_vecOf (v : List ℚ) :
    TS.NDArray.zeroLike (TS.vecOf v) = TS.vecOf (v.map fun _ => 0) := by
  simp only [TS.vecOf, TS.NDArray.zeroLike]
  congr 1
  induction v with
  | nil => rfl
  | cons q qs ih => simpa [TS.NDArray.zeroLikeList, TS.NDArray.zeroLike] using ih

theorem zeroRows_cons (i : Nat) (rest : List Nat) (rows : List TS.NDArray) :
    TS.zeroRows (i :: rest) rows =
      TS.zeroRows rest (rows.set i (TS.NDArray.zeroLike (rows.getD i (.node [])))) := rfl

theorem zeroRows_getD (idxs : List Nat) (rows : List TS.NDArray) (i : Nat)
    (hnd : idxs.Nodup) (hi : i < rows.length) :
    (TS.zeroRows idxs rows).getD i (.node []) =
      if i ∈ idxs then TS.NDArray.zeroLike (rows.getD i (.node []))
      else rows.getD i (.node []) := by
  induction idxs generalizing rows with
  | nil => simp [TS.zeroRows]
  | cons j rest ih =>
    rw [zeroRows_cons]
    obtain ⟨hj, hndr⟩ := List.nodup_cons.mp hnd
    by_cases hij : i = j
    · subst hij
      rw [ih _ hndr (by simpa using hi), if_neg hj, getD_set_self _ _ _ _ hi,
        if_pos (List.mem_cons_self i rest)]
    · rw [ih _ hndr (by simpa using hi), getD_set_ne _ _ _ (fun h => hij h.symm)]
      by_cases him : i ∈ rest
      · simp [him, List.mem_cons, hij]
      · simp [him, List.mem_cons, hij]

/-- C3: on a 2-D input, RandomZerosGenerator.generate succeeds,
records the selected indices (distinct by the numpy choice contract)
and returns them with the labels untouched; every row at a recorded
index becomes exactly the zero vector and every other row is unchanged
from the input. -/
theorem claim_C3_random_zeros (g : TS.RNG) (k : Nat) (rows : List TS.NDArray) (y : Unit)
    (hne : rows ≠ [])
    (h2d : ∀ r ∈ rows, ∃ v : List ℚ, r = TS.vecOf v)
    (hk : k ≤ rows.length)
    (hnd : (g.perm g.pos rows.length k).Nodup)
    (hbd : ∀ i ∈ g.perm g.pos rows.length k, i < rows.length) :
    TS.randomZerosGenerate g k (TS.NDArray.node rows) y =
      .ok (.node (TS.zeroRows (g.perm g.pos rows.length k) rows), y,
        g.perm g.pos rows.length k, g.adv 1) ∧
    (∀ i ∈ g.perm g.pos rows.length k,
      ∀ v : List ℚ, rows.getD i (.node []) = TS.vecOf v →
        (TS.zeroRows (g.perm g.pos rows.length k) rows).getD i (.node []) =
          TS.vecOf (v.map fun _ => 0)) ∧
    (∀ i, i < rows.length → i ∉ g.perm g.pos rows.length k →
      (TS.zeroRows (g.perm g.pos rows.length k) rows).getD i (.node []) =
        rows.getD i (.node [])) := by
  have hdim : (TS.NDArray.node rows).ndim = 2 := by
    cases rows with
    | nil => exact absurd rfl hne
    | cons r rest =>
      obtain ⟨v, rfl⟩ := h2d r (List.mem_cons_self r rest)
      simp [TS.NDArray.ndim, ndim_vecOf]
  refine ⟨?_, ?_, ?_⟩
  · rw [TS.randomZerosGenerate, if_neg (by rw [hdim]; omega)]
    rw [TS.npChoiceNoRep, if_neg (Nat.not_lt.mpr hk)]
  · intro i him v hv
    rw [zeroRows_getD _ _ _ hnd (hbd i him), if_pos him, hv, zeroLike_vecOf]
  · intro i hi hnot
    rw [zeroRows_getD _ _ _ hnd hi, if_neg hnot]

/-- C3 witness: on a two-row series with rows [5] and [2], selecting
index 1 zeroes exactly row 1 and leaves row 0 untouched. -/
theorem claim_C3_random_zeros_witness :
    TS.randomZerosGenerate Fix.gTs 1 (TS.NDArray.node [TS.vecOf [5], TS.vecOf [2]]) () =
      .ok (.node (TS.zeroRows [1] [TS.vecOf [5], TS.vecOf [2]]), (), [1], Fix.gTs.adv 1) ∧
    (TS.zeroRows [1] [TS.vecOf [5], TS.vecOf [2]]).getD 1 (.node []) = TS.vecOf [0] ∧
    (TS.zeroRows [1] [TS.vecOf [5], TS.vecOf [2]]).getD 0 (.node []) = TS.vecOf [5] := by
  have H := claim_C3_random_zeros Fix.gTs 1 [TS.vecOf [5], TS.vecOf [2]] ()
    (List.cons_ne_nil _ _)
    (by
      intro r hr
      rcases List.mem_cons.mp hr with rfl | hr2
      · exact ⟨[5], rfl⟩
      rcases List.mem_cons.mp hr2 with rfl | hr3
      · exact ⟨[2], rfl⟩
      cases hr3)
    (by decide) (by decide) (by decide)
  refine ⟨?_, ?_, ?_⟩
  · simpa [Fix.gTs] using H.1
  · simpa [Fix.gTs] using H.2.1 1 (by simp [Fix.gTs]) [2] rfl
  · simpa [Fix.gTs] using H.2.2 0 (by decide) (by simp [Fix.gTs])

/-- C5 counterexample: a 3-dimensional array is not 2-D, yet
RandomZerosGenerator.generate accepts it and runs to completion
without raising the shape error (the code only rejects ndim below 2). -/
theorem claim_C5_counterexample :
    Fix.T3d.ndim ≠ 2 ∧
    TS.isShapeErr (TS.randomZerosGenerate Fix.gTs0 1 Fix.T3d ()) = false := by
  constructor
  · decide
  · with_unfolding_all rfl

/-- C5 as amended: each time-series strategy raises the shape
ValueError exactly when the input has dimension below 2: 1-D and 0-D
inputs are rejected, while inputs of dimension 2 and above pass the
check (any later failure is not the shape error). -/
theorem claim_C5_shape_check (g : TS.RNG) (k w : Nat) (X : TS.NDArray) (y : Unit)
    (sqrtFn : ℚ → ℚ) :
    (TS.isShapeErr (TS.randomZerosGenerate g k X y) = true ↔ X.ndim < 2) ∧
    (TS.isShapeErr (TS.localZScoreGenerate sqrtFn g k w X y) = true ↔ X.ndim < 2) := by
  constructor
  · by_cases h : X.ndim < 2
    · simp [TS.randomZerosGenerate, h, TS.isShapeErr]
    · rw [TS.randomZerosGenerate.eq_def, if_neg h]
      cases X with
      | leaf x => exact absurd (by norm_num [TS.NDArray.ndim]) h
      | node rows =>
        simp only [TS.npChoiceNoRep]
        by_cases h2 : rows.length < k
        · simp [h2, TS.isShapeErr, h]
        · simp [h2, TS.isShapeErr, h]
  · by_cases h : X.ndim < 2
    · simp [TS.localZScoreGenerate, h, TS.isShapeErr]
    · rw [TS.localZScoreGenerate.eq_def, if_neg h]
      cases X with
      | leaf x => exact absurd (by norm_num [TS.NDArray.ndim]) h
      | node rows =>
        simp only [TS.npChoiceNoRep]
        by_cases h2 : rows.length < k
        · simp [h2, TS.isShapeErr, h]
        · simp [h2, TS.isShapeErr, h]

theorem nanLike_vecOf (t : List ℚ) :
    TS.nanLike (TS.vecOf t) = .node (List.replicate t.length (.leaf .nan)) := by
  rw [TS.nanLike, TS.vecOf, TS.ndMap]
  congr 1
  induction t with
  | nil => rfl
  | cons q qs ih =>
    simpa [TS.ndMapList, TS.ndMap, List.replicate_succ] using ih

theorem ndMap_node_replicate (f : TS.RVal → TS.RVal) (m : Nat) (a : TS.RVal) :
    TS.ndMap f (.node (List.replicate m (.leaf a))) = .node (List.replicate m (.leaf (f a))) := by
  rw [TS.ndMap]
  congr 1
  induction m with
  | zero => rfl
  | succ n ih => simp [TS.ndMapList, TS.ndMap, List.replicate_succ, ih]

theorem all_isLeaf_replicate (m : Nat) (a : TS.RVal) :
    (List.replicate m (TS.NDArray.leaf a)).all TS.NDArray.isLeaf = true := by
  induction m with
  | zero => rfl
  | succ n ih => simp [List.replicate_succ, TS.NDArray.isLeaf, ih]

theorem zipWith_nanRow (f : TS.RVal → TS.RVal → TS.RVal) (hf : ∀ b, f .nan b = .nan) :
    ∀ (m : Nat) (v : List TS.RVal),
      List.zipWith (fun x rv => TS.ndZipWith f x (.leaf rv)) (List.replicate m (.leaf .nan)) v =
        List.replicate (min m v.length) (.leaf .nan) := by
  intro m
  induction m with
  | zero => intro v; simp
  | succ n ih =>
    intro v
    cases v with
    | nil => simp
    | cons b bs =>
      simp only [List.replicate_succ, List.zipWith_cons_cons, TS.ndZipWith, hf, ih,
        List.length_cons]
      rw [Nat.succ_min_succ, List.replicate_succ]

theorem lastAxisZip_nanRow (f : TS.RVal → TS.RVal → TS.RVal) (hf : ∀ b, f .nan b = .nan)
    (v : List TS.RVal) (m : Nat) :
    TS.lastAxisZip f v (.node (List.replicate m (.leaf .nan))) =
      .node (List.replicate (min m v.length) (.leaf .nan)) := by
  rw [TS.lastAxisZip]
  rw [if_pos (all_isLeaf_replicate m .nan)]
  rw [zipWith_nanRow f hf m v]

theorem ndZipWith_nanRows (f : TS.RVal → TS.RVal → TS.RVal) (hf : f .nan .nan = .nan)
    (m m2 : Nat) :
    TS.ndZipWith f (.node (List.replicate m (.leaf .nan))) (.node (List.replicate m2 (.leaf .nan))) =
      .node (List.replicate (min m m2) (.leaf .nan)) := by
  rw [TS.ndZipWith]
  congr 1
  induction m generalizing m2 with
  | zero => simp [TS.ndZipWithList]
  | succ n ih =>
    cases m2 with
    | zero => simp [List.replicate_succ, TS.ndZipWithList]
    | succ n2 =>
      simp only [List.replicate_succ, TS.ndZipWithList, TS.ndZipWith, hf, ih]
      rw [Nat.succ_min_succ, List.replicate_succ]

/-- C9: when a selected index is smaller than half the window size,
the slice lower bound idx - w/2 is negative and Python interprets it
relative to the end of the array: the window starts at row
n + idx - w/2 (clamped into range) instead of just left of idx; the
window is empty exactly when that wrapped start is at or past the
clamped upper bound; and when the window is empty its mean and std are
NaN and the row written at idx is all NaN. -/
theorem claim_C9_boundary_window (sqrtFn : ℚ → ℚ) (g : TS.RNG) (halfw d idx : Nat)
    (rows : List TS.NDArray) (hidx : idx < halfw) :
    TS.pyNorm rows.length ((idx : Int) - (halfw : Int)) = rows.length + idx - halfw ∧
    (TS.pySlice rows ((idx : Int) - (halfw : Int)) ((idx : Int) + (halfw : Int)) = [] ↔
      min (idx + halfw) rows.length ≤ rows.length + idx - halfw) ∧
    (∀ t : List ℚ, rows.headD (.node []) = TS.vecOf t → t.length = d → idx < rows.length →
      TS.pySlice rows ((idx : Int) - (halfw : Int)) ((idx : Int) + (halfw : Int)) = [] →
      (TS.localZStep sqrtFn halfw d g rows idx).1.getD idx (.node []) =
        .node (List.replicate d (.leaf .nan))) := by
  have ha : TS.pyNorm rows.length ((idx : Int) - (halfw : Int)) = rows.length + idx - halfw := by
    rw [TS.pyNorm, if_pos (by omega)]
    omega
  have hb : TS.pyNorm rows.length ((idx : Int) + (halfw : Int)) = min (idx + halfw) rows.length := by
    rw [TS.pyNorm, if_neg (by omega)]
    omega
  refine ⟨ha, ?_, ?_⟩
  · rw [← List.length_eq_zero]
    simp only [TS.pySlice, ha, hb, List.length_take, List.length_drop]
    omega
  · intro t ht htd hlt hwin
    have hmean : TS.windowMean (rows.headD (.node [])) ([] : List TS.NDArray) =
        .node (List.replicate d (.leaf .nan)) := by
      rw [TS.windowMean, ht, nanLike_vecOf, htd]
    have hvar : TS.windowVar (rows.headD (.node [])) ([] : List TS.NDArray) =
        .node (List.replicate d (.leaf .nan)) := by
      rw [TS.windowVar]
      simp only [List.map_nil]
      exact hmean
    have hstd : TS.windowStd sqrtFn (rows.headD (.node [])) ([] : List TS.NDArray) =
        .node (List.replicate d (.leaf .nan)) := by
      rw [TS.windowStd, hvar, ndMap_node_replicate]
      simp only [TS.RVal.sqrtWith]
    have hlen_e : (TS.drawExps (TS.randomSign g d).2 d).1.length = d := by
      simp [TS.drawExps]
    have hlen_s : (TS.randomSign g d).1.length = d := by
      simp [TS.randomSign]
    rw [TS.localZStep, hwin, hmean, hstd, ndMap_node_replicate]
    simp only [TS.RVal.scale]
    rw [lastAxisZip_nanRow TS.RVal.add (fun b => rfl), hlen_e, Nat.min_self]
    rw [lastAxisZip_nanRow TS.RVal.mul (fun b => rfl), hlen_s, Nat.min_self]
    rw [ndZipWith_nanRows TS.RVal.add rfl, Nat.min_self]
    exact getD_set_self _ _ _ _ hlt

/-- C9 witness: in a 12-row series with half window 5, selecting index
2 gives the slice bounds [-3 : 7], whose negative start wraps to row 9;
the window rows[9:7] is empty and the mutated row 2 becomes all NaN. -/
theorem claim_C9_boundary_window_witness :
    TS.pyNorm (Fix.T12).length (((2 : Nat) : Int) - ((5 : Nat) : Int)) = Fix.T12.length + 2 - 5 ∧
    (TS.pySlice Fix.T12 (((2 : Nat) : Int) - ((5 : Nat) : Int))
        (((2 : Nat) : Int) + ((5 : Nat) : Int)) = [] ↔
      min (2 + 5) Fix.T12.length ≤ Fix.T12.length + 2 - 5) ∧
    (TS.localZStep id 5 1 Fix.gTs Fix.T12 2).1.getD 2 (.node []) =
      .node (List.replicate 1 (.leaf .nan)) := by
  have H := claim_C9_boundary_window id Fix.gTs 5 1 2 Fix.T12 (by decide)
  exact ⟨H.1, H.2.1, H.2.2 [7] rfl (by decide) (by decide) (by with_unfolding_all rfl)⟩

theorem ndZipWithList_vec (f : TS.RVal → TS.RVal → TS.RVal) (fQ : ℚ → ℚ → ℚ)
    (hf : ∀ x y, f (.val x) (.val y) = .val (fQ x y)) :
    ∀ (a b : List ℚ),
      TS.ndZipWithList f (a.map fun q => .leaf (.val q)) (b.map fun q => .leaf (.val q)) =
        (List.zipWith fQ a b).map fun q => .leaf (.val q) := by
  intro a
  induction a with
  | nil => intro b; cases b <;> rfl
  | cons x xs ih =>
    intro b
    cases b with
    | nil => rfl
    | cons y ys => simp [TS.ndZipWithList, TS.ndZipWith, hf, ih]

theorem ndZipWith_vec (f : TS.RVal → TS.RVal → TS.RVal) (fQ : ℚ → ℚ → ℚ)
    (hf : ∀ x y, f (.val x) (.val y) = .val (fQ x y)) (a b : List ℚ) :
    TS.ndZipWith f (TS.vecOf a) (TS.vecOf b) = TS.vecOf (List.zipWith fQ a b) := by
  rw [TS.vecOf, TS.vecOf, TS.vecOf, TS.ndZipWith, ndZipWithList_vec f fQ hf]

theorem ndMapList_vec (f : TS.RVal → TS.RVal) (fQ : ℚ → ℚ)
    (hf : ∀ x, f (.val x) = .val (fQ x)) :
    ∀ (a : List ℚ),
      TS.ndMapList f (a.map fun q => .leaf (.val q)) = (a.map fQ).map fun q => .leaf (.val q) := by
  intro a
  induction a with
  | nil => rfl
  | cons x xs ih => simp [TS.ndMapList, TS.ndMap, hf, ih]

theorem ndMap_vec (f : TS.RVal → TS.RVal) (fQ : ℚ → ℚ)
    (hf : ∀ x, f (.val x) = .val (fQ x)) (a : List ℚ) :
    TS.ndMap f (TS.vecOf a) = TS.vecOf (a.map fQ) := by
  rw [TS.vecOf, TS.vecOf, TS.ndMap, ndMapList_vec f fQ hf]

theorem all_isLeaf_map_leafval (a : List ℚ) :
    ((a.map fun q => TS.NDArray.leaf (TS.RVal.val q)).all TS.NDArray.isLeaf) = true := by
  induction a with
  | nil => rfl
  | cons x xs ih => simp [TS.NDArray.isLeaf, ih]

theorem lastAxisZip_vec (f : TS.RVal → TS.RVal → TS.RVal) (fQ : ℚ → ℚ → ℚ)
    (hf : ∀ x y, f (.val x) (.val y) = .val (fQ x y)) (vq : List ℚ) (a : List ℚ) :
    TS.lastAxisZip f (vq.map TS.RVal.val) (TS.vecOf a) = TS.vecOf (List.zipWith fQ a vq) := by
  rw [TS.vecOf, TS.lastAxisZip]
  rw [if_pos (all_isLeaf_map_leafval a)]
  rw [TS.vecOf]
  congr 1
  induction a generalizing vq with
  | nil => cases vq <;> rfl
  | cons x xs ih =>
    cases vq with
    | nil => rfl
    | cons y ys => simp [TS.ndZipWith, hf, ih]

theorem foldl_ndZipWith_vec :
    ∀ (rest : List (List ℚ)) (acc : List ℚ),
      (rest.map TS.vecOf).foldl (TS.ndZipWith TS.RVal.add) (TS.vecOf acc) =
        TS.vecOf (rest.foldl (List.zipWith (· + ·)) acc) := by
  intro rest
  induction rest with
  | nil => intro acc; rfl
  | cons v vsr ih =>
    intro acc
    simp only [List.map_cons, List.foldl_cons,
      ndZipWith_vec TS.RVal.add (· + ·) (fun x y => rfl), ih]

theorem windowMean_vec (tmpl : TS.NDArray) (vs : List (List ℚ)) (hvs : vs ≠ []) :
    TS.windowMean tmpl (vs.map TS.vecOf) = TS.vecOf (TS.vmean vs) := by
  cases vs with
  | nil => exact absurd rfl hvs
  | cons v rest =>
    rw [List.map_cons, TS.windowMean, TS.vmean, foldl_ndZipWith_vec,
      ndMap_vec _ _ (fun x => rfl), List.length_map]

theorem windowVar_vec (tmpl : TS.NDArray) (vs : List (List ℚ)) (hvs : vs ≠ []) :
    TS.windowVar tmpl (vs.map TS.vecOf) = TS.vecOf (TS.vvar vs) := by
  rw [TS.windowVar, windowMean_vec tmpl vs hvs, TS.vvar, List.map_map]
  have hcomp : ((fun w => TS.ndMap (fun x => TS.RVal.mul x x)
      (TS.ndZipWith TS.RVal.sub w (TS.vecOf (TS.vmean vs)))) ∘ TS.vecOf) =
      TS.vecOf ∘ fun v => (List.zipWith (· - ·) v (TS.vmean vs)).map fun x => x * x := by
    funext v
    simp only [Function.comp_apply, ndZipWith_vec TS.RVal.sub (· - ·) (fun x y => rfl),
      ndMap_vec (fun x => TS.RVal.mul x x) (fun x => x * x) (fun x => rfl)]
  rw [hcomp, ← List.map_map]
  exact windowMean_vec tmpl _ (by simpa using hvs)

theorem windowStd_vec (sqrtFn : ℚ → ℚ) (tmpl : TS.NDArray) (vs : List (List ℚ))
    (hvs : vs ≠ []) :
    TS.windowStd sqrtFn tmpl (vs.map TS.vecOf) = TS.vecOf ((TS.vvar vs).map sqrtFn) := by
  rw [TS.windowStd, windowVar_vec tmpl vs hvs, ndMap_vec _ sqrtFn (fun x => rfl)]

theorem foldl_zipWith_length :
    ∀ (rest : List (List ℚ)) (acc : List ℚ), (∀ v ∈ rest, v.length = acc.length) →
      (rest.foldl (List.zipWith (· + ·)) acc).length = acc.length := by
  intro rest
  induction rest with
  | nil => intro acc _; rfl
  | cons v vsr ih =>
    intro acc h
    rw [List.foldl_cons]
    have hlen : (List.zipWith (· + ·) acc v).length = acc.length := by
      rw [List.length_zipWith, h v (List.mem_cons_self v vsr), Nat.min_self]
    rw [ih _ (fun u hu => by rw [hlen, h u (List.mem_cons_of_mem _ hu)]), hlen]

theorem vmean_length (vs : List (List ℚ)) (L : Nat) (hvs : vs ≠ [])
    (hd : ∀ v ∈ vs, v.length = L) : (TS.vmean vs).length = L := by
  cases vs with
  | nil => exact absurd rfl hvs
  | cons v rest =>
    rw [TS.vmean, List.length_map, foldl_zipWith_length rest v
      (fun u hu => by
        rw [hd u (List.mem_cons_of_mem _ hu), hd v (List.mem_cons_self v rest)])]
    exact hd v (List.mem_cons_self v rest)

theorem vvar_length (vs : List (List ℚ)) (L : Nat) (hvs : vs ≠ [])
    (hd : ∀ v ∈ vs, v.length = L) : (TS.vvar vs).length = L := by
  rw [TS.vvar]
  apply vmean_length _ _ (by simpa using hvs)
  intro u hu
  obtain ⟨v, hv, rfl⟩ := List.mem_map.mp hu
  rw [List.length_map, List.length_zipWith, hd v hv, vmean_length vs L hvs hd, Nat.min_self]

theorem getD_zipWith (f : ℚ → ℚ → ℚ) :
    ∀ (a b : List ℚ) (j : Nat), j < a.length → j < b.length →
      (List.zipWith f a b).getD j 0 = f (a.getD j 0) (b.getD j 0) := by
  intro a
  induction a with
  | nil => intro b j h; simp at h
  | cons x xs ih =>
    intro b j hja hjb
    cases b with
    | nil => simp at hjb
    | cons y ys =>
      cases j with
      | zero => rfl
      | succ n =>
        simp only [List.zipWith_cons_cons, List.getD_cons_succ]
        exact ih ys n (by simpa using hja) (by simpa using hjb)

theorem getD_map (f : ℚ → ℚ) :
    ∀ (a : List ℚ) (j : Nat), j < a.length → (a.map f).getD j 0 = f (a.getD j 0) := by
  intro a
  induction a with
  | nil => intro j h; simp at h
  | cons x xs ih =>
    intro j hj
    cases j with
    | zero => rfl
    | succ n =>
      simp only [List.map_cons, List.getD_cons_succ]
      exact ih n (by simpa using hj)

theorem getD_mapNat (f : Nat → ℚ) :
    ∀ (a : List Nat) (j : Nat), j < a.length → (a.map f).getD j 0 = f (a.getD j 0) := by
  intro a
  induction a with
  | nil => intro j h; simp at h
  | cons x xs ih =>
    intro j hj
    cases j with
    | zero => rfl
    | succ n =>
      simp only [List.map_cons, List.getD_cons_succ]
      exact ih n (by simpa using hj)

theorem getD_range (d j : Nat) (hj : j < d) : (List.range d).getD j 0 = j := by
  rw [List.getD_eq_getElem _ _ (by simpa using hj), List.getElem_range]

theorem getD_nonneg (l : List ℚ) (h : ∀ x ∈ l, 0 ≤ x) (j : Nat) : 0 ≤ l.getD j 0 := by
  by_cases hj : j < l.length
  · rw [List.getD_eq_getElem _ _ hj]
    exact h _ (List.getElem_mem hj)
  · rw [List.getD_eq_default _ _ (Nat.le_of_not_lt hj)]

theorem foldl_zipWith_nonneg :
    ∀ (rest : List (List ℚ)) (acc : List ℚ), (∀ x ∈ acc, 0 ≤ x) →
      (∀ v ∈ rest, ∀ x ∈ v, 0 ≤ x) →
      ∀ x ∈ rest.foldl (List.zipWith (· + ·)) acc, 0 ≤ x := by
  intro rest
  induction rest with
  | nil => intro acc hacc _ x hx; exact hacc x hx
  | cons v vsr ih =>
    intro acc hacc hrest x hx
    rw [List.foldl_cons] at hx
    refine ih _ ?_ (fun u hu => hrest u (List.mem_cons_of_mem _ hu)) x hx
    intro z hz
    obtain ⟨a, b, ha, hb, rfl⟩ := mem_zipWith hz
    exact add_nonneg (hacc a ha) (hrest v (List.mem_cons_self v vsr) b hb)

theorem vmean_nonneg (vs : List (List ℚ)) (h : ∀ v ∈ vs, ∀ x ∈ v, 0 ≤ x) :
    ∀ x ∈ TS.vmean vs, 0 ≤ x := by
  cases vs with
  | nil => intro x hx; simp [TS.vmean] at hx
  | cons v rest =>
    intro x hx
    rw [TS.vmean] at hx
    obtain ⟨y, hy, rfl⟩ := List.mem_map.mp hx
    have hy0 : 0 ≤ y :=
      foldl_zipWith_nonneg rest v (h v (List.mem_cons_self v rest))
        (fun u hu => h u (List.mem_cons_of_mem _ hu)) y hy
    positivity

theorem vvar_entry_nonneg (vs : List (List ℚ)) (jf : Nat) : 0 ≤ (TS.vvar vs).getD jf 0 := by
  apply getD_nonneg
  rw [TS.vvar]
  apply vmean_nonneg
  intro v hv x hx
  obtain ⟨u, hu, rfl⟩ := List.mem_map.mp hv
  obtain ⟨y, hy, rfl⟩ := List.mem_map.mp hx
  exact mul_self_nonneg y

/-- One LocalZScoreGenerator iteration on a state whose local window
is a nonempty list of numeric rows of width d writes at idx a numeric
row whose deviation from the window mean is at least three window
standard deviations in every feature. -/
theorem localZStep_spec (sqrtFn : ℚ → ℚ) (halfw d : Nat) (g2 : TS.RNG)
    (A : List TS.NDArray) (idx : Nat) (vs : List (List ℚ))
    (hexp : ∀ i, 0 ≤ g2.exps i) (hsqrt : ∀ x, 0 ≤ x → 0 ≤ sqrtFn x)
    (hwin : TS.pySlice A ((idx : Int) - (halfw : Int)) ((idx : Int) + (halfw : Int)) =
      vs.map TS.vecOf)
    (hvs : vs ≠ []) (hd : ∀ v ∈ vs, v.length = d) (hlt : idx < A.length) :
    ∃ r : List ℚ,
      (TS.localZStep sqrtFn halfw d g2 A idx).1.getD idx (.node []) = TS.vecOf r ∧
      r.length = d ∧
      ∀ jf, jf < d →
        3 * sqrtFn ((TS.vvar vs).getD jf 0) ≤ |r.getD jf 0 - (TS.vmean vs).getD jf 0| := by
  have hsg1 : (TS.randomSign g2 d).1 =
      ((List.range d).map fun i => if g2.signs (g2.pos + i) then (1 : ℚ) else -1).map
        TS.RVal.val := by
    rw [TS.randomSign, List.map_map]
    rfl
  have heg1 : (TS.drawExps (TS.randomSign g2 d).2 d).1 =
      ((List.range d).map fun i =>
        (TS.randomSign g2 d).2.exps ((TS.randomSign g2 d).2.pos + i)).map TS.RVal.val := by
    rw [TS.drawExps, List.map_map]
    rfl
  have hmlen : (TS.vmean vs).length = d := vmean_length vs d hvs hd
  have hvlen : (TS.vvar vs).length = d := vvar_length vs d hvs hd
  refine ⟨List.zipWith (· + ·) (TS.vmean vs)
    (List.zipWith (· * ·)
      (List.zipWith (· + ·) (((TS.vvar vs).map sqrtFn).map (· * 3))
        ((List.range d).map fun i =>
          (TS.randomSign g2 d).2.exps ((TS.randomSign g2 d).2.pos + i)))
      ((List.range d).map fun i => if g2.signs (g2.pos + i) then (1 : ℚ) else -1)), ?_, ?_, ?_⟩
  · rw [TS.localZStep, hwin, windowMean_vec _ vs hvs, windowStd_vec sqrtFn _ vs hvs,
      ndMap_vec (TS.RVal.scale 3) (· * 3) (fun x => rfl), heg1, hsg1,
      lastAxisZip_vec TS.RVal.add (· + ·) (fun x y => rfl),
      lastAxisZip_vec TS.RVal.mul (· * ·) (fun x y => rfl),
      ndZipWith_vec TS.RVal.add (· + ·) (fun x y => rfl)]
    exact getD_set_self _ _ _ _ hlt
  · simp [List.length_zipWith, hmlen, hvlen]
  · intro jf hjf
    have hw3len : ((((TS.vvar vs).map sqrtFn).map (· * 3)) : List ℚ).length = d := by
      simp only [List.length_map]
      exact hvlen
    have hinlen : (List.zipWith (· + ·) (((TS.vvar vs).map sqrtFn).map (· * 3))
        ((List.range d).map fun i =>
          (TS.randomSign g2 d).2.exps ((TS.randomSign g2 d).2.pos + i))).length = d := by
      rw [List.length_zipWith, hw3len]
      simp
    have hsiglen : (List.zipWith (· * ·)
        (List.zipWith (· + ·) (((TS.vvar vs).map sqrtFn).map (· * 3))
          ((List.range d).map fun i =>
            (TS.randomSign g2 d).2.exps ((TS.randomSign g2 d).2.pos + i)))
        ((List.range d).map fun i => if g2.signs (g2.pos + i) then (1 : ℚ) else -1)).length
        = d := by
      rw [List.length_zipWith, hinlen]
      simp
    rw [getD_zipWith _ _ _ jf (by rw [hmlen]; exact hjf) (by rw [hsiglen]; exact hjf)]
    rw [getD_zipWith _ _ _ jf (by rw [hinlen]; exact hjf) (by simp [hjf])]
    rw [getD_zipWith _ _ _ jf (by rw [hw3len]; exact hjf) (by simp [hjf])]
    rw [getD_map _ _ jf (by simp [hvlen, hjf]), getD_map _ _ jf (by rw [hvlen]; exact hjf)]
    rw [getD_mapNat _ _ jf (by simp [hjf]), getD_mapNat _ _ jf (by simp [hjf]),
      getD_range d jf hjf]
    have he0 : 0 ≤ (TS.randomSign g2 d).2.exps ((TS.randomSign g2 d).2.pos + jf) := hexp _
    have hw0 : 0 ≤ sqrtFn ((TS.vvar vs).getD jf 0) := hsqrt _ (vvar_entry_nonneg vs jf)
    by_cases hb : g2.signs (g2.pos + jf)
    · rw [if_pos hb, mul_one]
      rw [show (TS.vmean vs).getD jf 0 +
          (sqrtFn ((TS.vvar vs).getD jf 0) * 3 +
            (TS.randomSign g2 d).2.exps ((TS.randomSign g2 d).2.pos + jf)) -
          (TS.vmean vs).getD jf 0 =
          sqrtFn ((TS.vvar vs).getD jf 0) * 3 +
            (TS.randomSign g2 d).2.exps ((TS.randomSign g2 d).2.pos + jf) from by ring]
      rw [abs_of_nonneg (by linarith)]
      linarith
    · rw [if_neg hb]
      rw [show (TS.vmean vs).getD jf 0 +
          (sqrtFn ((TS.vvar vs).getD jf 0) * 3 +
            (TS.randomSign g2 d).2.exps ((TS.randomSign g2 d).2.pos + jf)) * (-1) -
          (TS.vmean vs).getD jf 0 =
          -(sqrtFn ((TS.vvar vs).getD jf 0) * 3 +
            (TS.randomSign g2 d).2.exps ((TS.randomSign g2 d).2.pos + jf)) from by ring]
      rw [abs_neg, abs_of_nonneg (by linarith)]
      linarith

theorem localZStep_length (sqrtFn : ℚ → ℚ) (halfw d : Nat) (g : TS.RNG)
    (rows : List TS.NDArray) (idx : Nat) :
    (TS.localZStep sqrtFn halfw d g rows idx).1.length = rows.length := by
  rw [TS.localZStep]
  exact List.length_set rows idx _

theorem localZStep_frame (sqrtFn : ℚ → ℚ) (halfw d : Nat) (g : TS.RNG)
    (rows : List TS.NDArray) (idx i : Nat) (h : i ≠ idx) :
    (TS.localZStep sqrtFn halfw d g rows idx).1.getD i (.node []) =
      rows.getD i (.node []) := by
  rw [TS.localZStep]
  exact getD_set_ne _ _ _ (fun hc => h hc.symm)

theorem processIdxs_cons (sqrtFn : ℚ → ℚ) (halfw d : Nat) (g : TS.RNG)
    (rows : List TS.NDArray) (i : Nat) (rest : List Nat) :
    TS.processIdxs sqrtFn halfw d g rows (i :: rest) =
      TS.processIdxs sqrtFn halfw d (TS.localZStep sqrtFn halfw d g rows i).2
        (TS.localZStep sqrtFn halfw d g rows i).1 rest := rfl

theorem processIdxs_length (sqrtFn : ℚ → ℚ) (halfw d : Nat) :
    ∀ (idxs : List Nat) (g : TS.RNG) (rows : List TS.NDArray),
      (TS.processIdxs sqrtFn halfw d g rows idxs).1.length = rows.length := by
  intro idxs
  induction idxs with
  | nil => intro g rows; rfl
  | cons i rest ih =>
    intro g rows
    rw [processIdxs_cons, ih, localZStep_length]

theorem processIdxs_exps (sqrtFn : ℚ → ℚ) (halfw d : Nat) :
    ∀ (idxs : List Nat) (g : TS.RNG) (rows : List TS.NDArray),
      (TS.processIdxs sqrtFn halfw d g rows idxs).2.exps = g.exps := by
  intro idxs
  induction idxs with
  | nil => intro g rows; rfl
  | cons i rest ih =>
    intro g rows
    rw [processIdxs_cons, ih]
    rfl

theorem processIdxs_frame (sqrtFn : ℚ → ℚ) (halfw d : Nat) :
    ∀ (idxs : List Nat) (g : TS.RNG) (rows : List TS.NDArray) (i : Nat), i ∉ idxs →
      (TS.processIdxs sqrtFn halfw d g rows idxs).1.getD i (.node []) =
        rows.getD i (.node []) := by
  intro idxs
  induction idxs with
  | nil => intro g rows i _; rfl
  | cons j rest ih =>
    intro g rows i hi
    rw [processIdxs_cons, ih _ _ _ (fun hc => hi (List.mem_cons.mpr (Or.inr hc))),
      localZStep_frame _ _ _ _ _ _ _ (fun hc => hi (List.mem_cons.mpr (Or.inl hc)))]

theorem processIdxs_at (sqrtFn : ℚ → ℚ) (halfw d : Nat) :
    ∀ (idxs : List Nat) (g : TS.RNG) (rows : List TS.NDArray) (j : Nat) (hj : j < idxs.length),
      idxs.Nodup →
      (TS.processIdxs sqrtFn halfw d g rows idxs).1.getD (idxs.get ⟨j, hj⟩) (.node []) =
        (TS.localZStep sqrtFn halfw d
            (TS.processIdxs sqrtFn halfw d g rows (idxs.take j)).2
            (TS.processIdxs sqrtFn halfw d g rows (idxs.take j)).1
            (idxs.get ⟨j, hj⟩)).1.getD (idxs.get ⟨j, hj⟩) (.node []) := by
  intro idxs
  induction idxs with
  | nil => intro g rows j hj; simp at hj
  | cons i rest ih =>
    intro g rows j hj hnd
    obtain ⟨hi, hndr⟩ := List.nodup_cons.mp hnd
    cases j with
    | zero =>
      rw [processIdxs_cons]
      show (TS.processIdxs sqrtFn halfw d _ _ rest).1.getD i (.node []) = _
      rw [processIdxs_frame sqrtFn halfw d rest _ _ i hi]
      rfl
    | succ j2 =>
      have hj2 : j2 < rest.length := by simpa using hj
      rw [processIdxs_cons]
      show (TS.processIdxs sqrtFn halfw d _ _ rest).1.getD (rest.get ⟨j2, hj2⟩) (.node []) = _
      rw [ih _ _ j2 hj2 hndr]
      rfl

/-- C4 counterexample: rows [0] and [2] with window size 2, index 1
selected, sign +1 and exponential draw 1/2.  The window is both rows,
its mean is 1 and its std is 1; the new value is 1 + (3 + 1/2) = 9/2,
so the change from the previous value 2 has magnitude 5/2, which does
not exceed 3 * local_std = 3.  The claim measures the change against
the previous value; only the deviation from the window mean is
guaranteed. -/
theorem claim_C4_counterexample :
    TS.localZScoreGenerate id Fix.gTs 1 2 (TS.NDArray.node [TS.vecOf [0], TS.vecOf [2]]) () =
      .ok (.node [TS.vecOf [0], TS.vecOf [9 / 2]], (), [1], ((Fix.gTs.adv 1).adv 1).adv 1) ∧
    TS.windowStd id (TS.vecOf [0]) [TS.vecOf [0], TS.vecOf [2]] = TS.vecOf [1] ∧
    (9 : ℚ) / 2 - 2 = 5 / 2 ∧
    ¬ (3 * (1 : ℚ) < (9 : ℚ) / 2 - 2) := by
  refine ⟨?_, ?_, ?_, ?_⟩
  · with_unfolding_all rfl
  · with_unfolding_all rfl
  · norm_num
  · norm_num

/-- C4 as amended: on a 2-D input, generate succeeds, records the
selected indices and leaves y untouched; the output differs from the
input only at the recorded indices; and at the moment each recorded
index is processed, whenever its local window (taken from the
partially mutated array) is a nonempty list of numeric rows, the row
written there deviates from that window mean by at least 3 times the
window standard deviation in every feature (the written value is
mean + sign * (3 * std + E) with E the nonnegative exponential draw;
the change from the previously stored value carries no such bound). -/
theorem claim_C4_local_zscore (sqrtFn : ℚ → ℚ) (g : TS.RNG) (k w : Nat)
    (rows : List TS.NDArray) (y : Unit)
    (hne : rows ≠ [])
    (h2d : ∀ r ∈ rows, ∃ v : List ℚ, r = TS.vecOf v)
    (hk : k ≤ rows.length)
    (hnd : (g.perm g.pos rows.length k).Nodup)
    (hbd : ∀ i ∈ g.perm g.pos rows.length k, i < rows.length)
    (hexp : ∀ i, 0 ≤ g.exps i)
    (hsqrt : ∀ x, 0 ≤ x → 0 ≤ sqrtFn x) :
    TS.localZScoreGenerate sqrtFn g k w (TS.NDArray.node rows) y =
      .ok (.node (TS.processIdxs sqrtFn (w / 2) (TS.shape1 (.node rows)) (g.adv 1) rows
          (g.perm g.pos rows.length k)).1, y, g.perm g.pos rows.length k,
        (TS.processIdxs sqrtFn (w / 2) (TS.shape1 (.node rows)) (g.adv 1) rows
          (g.perm g.pos rows.length k)).2) ∧
    (∀ i, i < rows.length → i ∉ g.perm g.pos rows.length k →
      (TS.processIdxs sqrtFn (w / 2) (TS.shape1 (.node rows)) (g.adv 1) rows
        (g.perm g.pos rows.length k)).1.getD i (.node []) = rows.getD i (.node [])) ∧
    (∀ (j : Nat) (hj : j < (g.perm g.pos rows.length k).length) (vs : List (List ℚ)),
      TS.pySlice (TS.processIdxs sqrtFn (w / 2) (TS.shape1 (.node rows)) (g.adv 1) rows
          ((g.perm g.pos rows.length k).take j)).1
        ((((g.perm g.pos rows.length k).get ⟨j, hj⟩ : Nat) : Int) - ((w / 2 : Nat) : Int))
        ((((g.perm g.pos rows.length k).get ⟨j, hj⟩ : Nat) : Int) + ((w / 2 : Nat) : Int)) =
          vs.map TS.vecOf →
      vs ≠ [] → (∀ v ∈ vs, v.length = TS.shape1 (.node rows)) →
      ∃ r : List ℚ,
        (TS.processIdxs sqrtFn (w / 2) (TS.shape1 (.node rows)) (g.adv 1) rows
          (g.perm g.pos rows.length k)).1.getD
            ((g.perm g.pos rows.length k).get ⟨j, hj⟩) (.node []) = TS.vecOf r ∧
        r.length = TS.shape1 (.node rows) ∧
        ∀ jf, jf < TS.shape1 (.node rows) →
          3 * sqrtFn ((TS.vvar vs).getD jf 0) ≤
            |r.getD jf 0 - (TS.vmean vs).getD jf 0|) := by
  have hdim : (TS.NDArray.node rows).ndim = 2 := by
    cases rows with
    | nil => exact absurd rfl hne
    | cons r rest =>
      obtain ⟨v, rfl⟩ := h2d r (List.mem_cons_self r rest)
      simp [TS.NDArray.ndim, ndim_vecOf]
  refine ⟨?_, ?_, ?_⟩
  · rw [TS.localZScoreGenerate.eq_def, if_neg (by rw [hdim]; omega)]
    simp only [TS.npChoiceNoRep]
    rw [if_neg (Nat.not_lt.mpr hk)]
  · intro i _ hnot
    exact processIdxs_frame _ _ _ _ _ _ _ hnot
  · intro j hj vs hwin hvs hd
    rw [processIdxs_at sqrtFn (w / 2) (TS.shape1 (.node rows)) _ (g.adv 1) rows j hj hnd]
    have hexp2 : ∀ i, 0 ≤ (TS.processIdxs sqrtFn (w / 2) (TS.shape1 (.node rows)) (g.adv 1)
        rows ((g.perm g.pos rows.length k).take j)).2.exps i := by
      rw [processIdxs_exps]
      exact hexp
    refine localZStep_spec sqrtFn (w / 2) (TS.shape1 (.node rows)) _ _ _ vs hexp2 hsqrt
      hwin hvs hd ?_
    rw [processIdxs_length]
    exact hbd _ (List.get_mem _ _ _)

/-- C4 witness: on rows [0] and [2] with window size 2 and index 1
selected, the window is both rows (mean 1, variance 1, std 1); the
written row is [9/2] and its deviation from the mean, 7/2, is at least
3 * 1. -/
theorem claim_C4_local_zscore_witness :
    ∃ r : List ℚ,
      (TS.processIdxs id 1 1 (Fix.gTs.adv 1) [TS.vecOf [0], TS.vecOf [2]] [1]).1.getD 1
          (.node []) = TS.vecOf r ∧
      r.length = 1 ∧
      ∀ jf, jf < 1 →
        3 * id ((TS.vvar [[0], [2]]).getD jf 0) ≤
          |r.getD jf 0 - (TS.vmean [[0], [2]]).getD jf 0| := by
  have H := claim_C4_local_zscore id Fix.gTs 1 2 [TS.vecOf [0], TS.vecOf [2]] ()
    (List.cons_ne_nil _ _)
    (by
      intro r hr
      rcases List.mem_cons.mp hr with rfl | hr2
      · exact ⟨[0], rfl⟩
      rcases List.mem_cons.mp hr2 with rfl | hr3
      · exact ⟨[2], rfl⟩
      cases hr3)
    (by decide) (by decide) (by decide)
    (fun _ => by norm_num [Fix.gTs])
    (fun x hx => hx)
  exact H.2.2 0 (by decide) [[0], [2]] (by with_unfolding_all rfl)
    (List.cons_ne_nil _ _) (by decide)

/-- C10: DecompositionAndOutlierGenerator.generate does not forward its
per-call params to the delegate generate call, so for every input and
every params bag the result is identical to calling with no params; in
particular a max_samples override has no effect on a wrapped
LowDensitySamplingGenerator. -/
theorem claim_C10_params_not_forwarded :
    (∀ (α β : Type) (fwd inv : List (List ℚ) → List (List ℚ))
      (delegate : List (List ℚ) → α → Tabular.Params → List (List ℚ) × β)
      (X : List (List ℚ)) (y : α) (ps : Tabular.Params),
      Tabular.decompGenerate fwd inv delegate X y ps =
        Tabular.decompGenerate fwd inv delegate X y Tabular.noParams) ∧
    (∀ (fwd inv : List (List ℚ) → List (List ℚ)) (sc : Tabular.Scaler)
      (score : List ℚ → ℚ) (g : Tabular.RNG) (p : Nat)
      (X : List (List ℚ)) (y : Unit) (ms : Option Nat),
      Tabular.decompGenerate fwd inv
        (fun Xt _ ps => Tabular.lowDensityGenerate sc score g p ps Xt) X y ⟨ms⟩ =
      Tabular.decompGenerate fwd inv
        (fun Xt _ ps => Tabular.lowDensityGenerate sc score g p ps Xt) X y ⟨none⟩) :=
  ⟨fun _ _ _ _ _ _ _ _ => rfl, fun _ _ _ _ _ _ _ _ _ => rfl⟩

/-- C8: every strategy is deterministic in the random source: two
generate calls with equal random-source states (separately created but
identically seeded generators) on the same input and configuration
produce identical outputs. -/
theorem claim_C8_determinism :
    (∀ (sc : Tabular.Scaler) (g1 g2 : Tabular.RNG) (p : Nat) (X : List (List ℚ)),
      g1 = g2 → Tabular.zscoreGenerate sc g1 p X = Tabular.zscoreGenerate sc g2 p X) ∧
    (∀ (sc : Tabular.Scaler) (g1 g2 : Tabular.RNG) (p : Nat) (X : List (List ℚ)),
      g1 = g2 → Tabular.hypersphereGenerate sc g1 p X = Tabular.hypersphereGenerate sc g2 p X) ∧
    (∀ (sc : Tabular.Scaler) (g1 g2 : Tabular.RNG) (p : Nat) (thr : ℚ) (bins : Nat)
      (X : List (List ℚ)), g1 = g2 →
      Tabular.histogramGenerate sc g1 p thr bins X = Tabular.histogramGenerate sc g2 p thr bins X) ∧
    (∀ (sc : Tabular.Scaler) (score : List ℚ → ℚ) (g1 g2 : Tabular.RNG) (p : Nat)
      (ps : Tabular.Params) (X : List (List ℚ)), g1 = g2 →
      Tabular.lowDensityGenerate sc score g1 p ps X = Tabular.lowDensityGenerate sc score g2 p ps X) ∧
    (∀ (g1 g2 : TS.RNG) (k : Nat) (X : TS.NDArray) (y : Unit), g1 = g2 →
      TS.randomZerosGenerate g1 k X y = TS.randomZerosGenerate g2 k X y) ∧
    (∀ (sqrtFn : ℚ → ℚ) (g1 g2 : TS.RNG) (k w : Nat) (X : TS.NDArray) (y : Unit), g1 = g2 →
      TS.localZScoreGenerate sqrtFn g1 k w X y = TS.localZScoreGenerate sqrtFn g2 k w X y) := by
  refine ⟨?_, ?_, ?_, ?_, ?_, ?_⟩ <;> intros <;> subst_vars <;> rfl

/-- Witness for C8 at concrete inputs: the determinism law applied to
one concrete random source given twice. -/
theorem claim_C8_determinism_witness :
    Tabular.zscoreGenerate Fix.idScaler Fix.gTab 50 Fix.X1 =
      Tabular.zscoreGenerate Fix.idScaler Fix.gTab 50 Fix.X1 ∧
    TS.randomZerosGenerate Fix.gTs 1 Fix.T1 () =
      TS.randomZerosGenerate Fix.gTs 1 Fix.T1 () :=
  ⟨claim_C8_determinism.1 Fix.idScaler Fix.gTab Fix.gTab 50 Fix.X1 rfl,
   claim_C8_determinism.2.2.2.2.1 Fix.gTs Fix.gTs 1 Fix.T1 () rfl⟩

end Badgers
